import Mathlib

/-!
Verification of the `fits` Go package (a FITS 3.0 decoder) against its
natural-language specification.

The Go source is shallowly embedded: Go strings become `List Char`, byte
streams become `List Nat` (one `Nat` per byte, each < 256), the dynamically
typed `interface \x7b\x7d` header/cell values become the closed sum `Value`,
IEEE-754 floating point numbers are modelled exactly as `FVal` (a rational
together with distinguished NaN and signed-infinity points), and a Go runtime
panic is modelled by the `Out.crash` constructor.  All definitions follow the
structure of the corresponding Go function; deviations forced by the
shallow embedding (e.g. closures becoming derived functions over the record
they captured) are noted in doc comments.
-/

set_option maxHeartbeats 2000000
set_option maxRecDepth 400000

namespace Fits

/-- A Go computation outcome: either a runtime panic with a message, or a
normal result.  Panics propagate; they are never caught by the package. -/
inductive Out (α : Type) : Type where
  | crash (msg : List Char) : Out α
  | ok (a : α) : Out α
  deriving DecidableEq

/-- IEEE-754 value modelled exactly: finite values are the rational they
denote, plus NaN and the two infinities. -/
inductive FVal : Type where
  | num (q : Rat) : FVal
  | inf (negSign : Bool) : FVal
  | nan : FVal
  deriving DecidableEq

/-- The closed union of Go `interface \x7b\x7d` values the package stores in
`Unit.Keys` and returns from table accessors: int, float64, bool, string,
complex, nil, and the fixed-size slices binary-table accessors return for
repeat > 1. -/
inductive Value : Type where
  | vInt (n : Int) : Value
  | vFloat (x : FVal) : Value
  | vBool (b : Bool) : Value
  | vStr (s : List Char) : Value
  | vCplx (re im : FVal) : Value
  | vNull : Value
  | vArr (l : List Value) : Value

/-- Shorthand: the character list of a string literal. -/
def lc (s : String) : List Char := s.toList

/-- Tail-recursive list length whose accumulator is forced at every step
(the `if` keeps kernel reduction shallow on block-sized lists; the
condition is never true since the accumulator only grows).  Extensionally
equal to `List.length`, which is proved right below and used in proofs. -/
def listLenAux : List Nat → Nat → Nat
  | _ :: _ :: _ :: _ :: _ :: _ :: _ :: _ :: t, acc =>
      let m := acc + 8
      if m = 0 then 0 else listLenAux t m
  | _ :: t, acc =>
      let m := acc + 1
      if m = 0 then 0 else listLenAux t m
  | [], acc => acc

/-- Length of a byte list (see `listLenAux`). -/
def listLen (l : List Nat) : Nat := listLenAux l 0

theorem listLenAux_eq (l : List Nat) (acc : Nat) :
    listLenAux l acc = l.length + acc := by
  induction l, acc using listLenAux.induct with
  | case1 a1 a2 a3 a4 a5 a6 a7 a8 t acc m hm =>
      have h2 : acc + 8 = 0 := hm
      omega
  | case2 a1 a2 a3 a4 a5 a6 a7 a8 t acc m hm ih =>
      rw [listLenAux.eq_1, if_neg (by omega)]
      have ih2 : listLenAux t (acc + 8) = t.length + (acc + 8) := ih
      rw [ih2]
      simp only [List.length_cons]
      omega
  | case3 a t acc hx m hm =>
      have h2 : acc + 1 = 0 := hm
      omega
  | case4 a t acc hx m hm ih =>
      rw [listLenAux.eq_2 acc a t hx, if_neg (by omega)]
      have ih2 : listLenAux t (acc + 1) = t.length + (acc + 1) := ih
      rw [ih2]
      simp only [List.length_cons]
      omega
  | case5 acc => simp [listLenAux]

theorem listLen_eq (l : List Nat) : listLen l = l.length := by
  simp [listLen, listLenAux_eq]

/-- Go `map[string]interface\x7b\x7d` modelled as an association list where
an update prepends its entry, so `List.lookup` (first match) returns the
most recent binding. -/
def KeyMap : Type := List (List Char × Value)

/-- Map update (`m[k] = v` in Go). -/
def kset (m : KeyMap) (k : List Char) (v : Value) : KeyMap := (k, v) :: m

/-- Map read with presence flag (`v, ok := m[k]` in Go). -/
def klookup (m : KeyMap) (k : List Char) : Option Value := List.lookup k m

/-- Go's ASCII whitespace set used by `strings.TrimSpace` (the header only
ever contains ASCII, for which Unicode and ASCII trimming agree). -/
def isSpaceChar (c : Char) : Bool :=
  c = ' ' ∨ c = '\t' ∨ c = '\n' ∨ c = '\x0b' ∨ c = '\x0c' ∨ c = '\r'

/-- `strings.TrimSpace`: drop leading and trailing whitespace. -/
def trimSpace (s : List Char) : List Char :=
  (((s.dropWhile isSpaceChar).reverse).dropWhile isSpaceChar).reverse

/-- `strings.TrimRight(s, " ")`: drop trailing space characters only. -/
def trimRightSpaces (s : List Char) : List Char :=
  ((s.reverse).dropWhile (fun c => c = ' ')).reverse

/-- Decimal digit test. -/
def isDigitChar (c : Char) : Bool := '0' ≤ c ∧ c ≤ '9'

/-- Numeric value of a list of decimal digits (most significant first). -/
def digitsVal (ds : List Char) : Nat :=
  ds.foldl (fun acc c => acc * 10 + (c.toNat - '0'.toNat)) 0

/-- Decimal digits of a natural number, most significant first.  The fuel
argument makes the recursion structural (so it reduces inside the kernel);
`decOfNat` supplies `n + 1`, which always suffices since `n / 10 < n` for
`n ≥ 10`. -/
def decDigitsAux (fuel : Nat) (n : Nat) (acc : List Char) : List Char :=
  match fuel with
  | 0 => acc
  | fuel + 1 =>
      if n < 10 then Char.ofNat (n + '0'.toNat) :: acc
      else decDigitsAux fuel (n / 10) (Char.ofNat (n % 10 + '0'.toNat) :: acc)

/-- Decimal rendering of a natural number. -/
def decOfNat (n : Nat) : List Char := decDigitsAux (n + 1) n []

/-- Decimal rendering of an integer (Go `%d` / `strconv.Itoa`). -/
def decOfInt (n : Int) : List Char :=
  if n < 0 then '-' :: decOfNat n.natAbs else decOfNat n.natAbs

/-- Go helper `Nth(prefix, n)`: `fmt.Sprintf("%s%d", prefix, n)`. -/
def Nth (p : List Char) (n : Int) : List Char := p ++ decOfInt n

/-- `strconv.ParseInt(s, 10, 32)` with the error discarded, as every call
site in the package does (`x, _ := strconv.ParseInt(...)`): a syntactically
invalid string yields 0 and an out-of-range value is clamped to the int32
bounds (Go returns the clamped value together with `ErrRange`). -/
def parseInt32 (s : List Char) : Int :=
  let core : List Char → Option Nat := fun ds =>
    if ds = [] then none
    else if ds.all isDigitChar then some (digitsVal ds) else none
  let signed : Option Int :=
    match s with
    | '+' :: rest => (core rest).map (fun n => (n : Int))
    | '-' :: rest => (core rest).map (fun n => -(n : Int))
    | _ => (core s).map (fun n => (n : Int))
  match signed with
  | none => 0
  | some v =>
      if v > 2147483647 then 2147483647
      else if v < -2147483648 then -2147483648
      else v

/-- `strconv.ParseFloat(s, 64)` with the error discarded, restricted to the
decimal syntax headers actually use: optional sign, digits with an optional
fraction part, an optional `e`/`E` exponent, and the `Inf` spellings.
An invalid string yields 0 (the call sites write `x, _ := ...`).  The result
is the exact rational the decimal denotes; rounding this to the nearest
binary float64 is not modelled (no claim depends on a value where the
difference is observable). -/
def parseGoFloat (s : List Char) : FVal :=
  let split : List Char → Option (Nat × Nat × Nat) := fun body =>
    -- mantissa digits (integer and fraction) and the fraction length
    let intPart := body.takeWhile isDigitChar
    let rest := body.dropWhile isDigitChar
    let afterDot : Option (List Char × List Char) :=
      match rest with
      | '.' :: r => some (r.takeWhile isDigitChar, r.dropWhile isDigitChar)
      | _ => some ([], rest)
    match afterDot with
    | none => none
    | some (fracPart, tail) =>
        if intPart = [] ∧ fracPart = [] then none
        else
          let expVal : Option Int :=
            match tail with
            | [] => some 0
            | e :: r =>
                if e = 'e' ∨ e = 'E' then
                  match r with
                  | '+' :: ds => if ds ≠ [] ∧ ds.all isDigitChar then some (digitsVal ds) else none
                  | '-' :: ds => if ds ≠ [] ∧ ds.all isDigitChar then some (-(digitsVal ds : Int)) else none
                  | ds => if ds ≠ [] ∧ ds.all isDigitChar then some (digitsVal ds) else none
                else none
          match expVal with
          | none => none
          | some e =>
              some (digitsVal (intPart ++ fracPart), fracPart.length,
                    (e + 1000000).toNat)  -- exponent shifted to keep it a Nat
    -- the shifted exponent avoids a dependent match on the sign of e
  let mkNum : Bool → Nat → Nat → Nat → FVal := fun negSign mant fracLen expShifted =>
    let e : Int := (expShifted : Int) - 1000000 - (fracLen : Int)
    let mag : Rat :=
      if e ≥ 0 then (mant : Rat) * ((10 ^ e.toNat : Nat) : Rat)
      else (mant : Rat) / ((10 ^ (-e).toNat : Nat) : Rat)
    FVal.num (if negSign then -mag else mag)
  let parseBody : Bool → List Char → FVal := fun negSign body =>
    if body = lc "Inf" ∨ body = lc "inf" ∨ body = lc "INF" then FVal.inf negSign
    else
      match split body with
      | some (mant, fracLen, expShifted) => mkNum negSign mant fracLen expShifted
      | none => FVal.num 0
  match s with
  | '+' :: rest => parseBody false rest
  | '-' :: rest => parseBody true rest
  | _ => parseBody false s

/-- `strings.ContainsAny(value, ".DE")`. -/
def containsDotDE (s : List Char) : Bool :=
  s.any (fun c => c = '.' ∨ c = 'D' ∨ c = 'E')

/-- `strings.Replace(s, "D", "E", 1)`: replace the first `D` by `E`. -/
def replaceFirstD : List Char → List Char
  | [] => []
  | c :: rest => if c = 'D' then 'E' :: rest else c :: replaceFirstD rest

/-- The loop body of Go `processString`: `state` 0 awaits the opening quote,
1 collects characters, 2 has just seen a quote that may close the string or
(if doubled) stand for a literal quote.  Reaching the end of the input in
any state yields the error `"String ends prematurely"`, exactly as the
single return statement after the Go loop does. -/
def psLoop : Nat → List Char → List Char → Except (List Char) (List Char)
  | _, _, [] => Except.error (lc "String ends prematurely")
  | 0, buf, c :: cs =>
      if c = '\'' then psLoop 1 buf cs
      else Except.error (lc "String does not start with a quote")
  | 1, buf, c :: cs =>
      if c = '\'' then psLoop 2 buf cs else psLoop 1 (buf ++ [c]) cs
  | 2, buf, c :: cs =>
      if c = '\'' then psLoop 1 (buf ++ [c]) cs
      else Except.ok (trimRightSpaces buf)
  | _ + 3, _, _ => Except.error (lc "String ends prematurely")

/-- Go `processString`: decode a quoted header string with the 3-state
machine, trimming trailing spaces from the collected value. -/
def processString (s : List Char) : Except (List Char) (List Char) :=
  psLoop 0 [] s

/-- `fmt.Sscanf(value, "(%f,%f)")` as used for complex header values: parse
the two floats on a best-effort basis, leaving 0 for anything that does not
scan (Go ignores the error and keeps the zero values). -/
def scanCplx (s : List Char) : FVal × FVal :=
  let isFloatChar : Char → Bool := fun c =>
    isDigitChar c ∨ c = '+' ∨ c = '-' ∨ c = '.' ∨ c = 'e' ∨ c = 'E'
  match s with
  | '(' :: rest =>
      let xs := rest.takeWhile isFloatChar
      let rest2 := rest.dropWhile isFloatChar
      match rest2 with
      | ',' :: rest3 =>
          let ys := rest3.takeWhile isFloatChar
          (parseGoFloat xs, parseGoFloat ys)
      | _ => (parseGoFloat xs, FVal.num 0)
  | _ => (FVal.num 0, FVal.num 0)

/-- One byte of the stream viewed as the character Go's card slicing
produces (the header is ASCII, where bytes and runes coincide). -/
def charOfByte (b : Nat) : Char := Char.ofNat b

/-- The per-card body of the Go `NewHeader` block loop: decode one
80-character card into a key update of `keys`.  A card whose columns 9-10
are not `"= "` records the key with a nil value; a string literal that
`processString` rejects records nothing (the error is discarded by the
`if err == nil` in the source). -/
def processCard (keys : KeyMap) (card : List Nat) : KeyMap :=
  let s := card.map charOfByte
  let key := trimSpace (s.take 8)
  if (s.drop 8).take 2 ≠ lc "= " then kset keys key Value.vNull
  else
    let s1 := trimSpace (s.drop 10)
    if s1 = [] then kset keys key Value.vNull
    else
      match s1 with
      | [] => kset keys key Value.vNull
      | first :: _ =>
        if first = '\'' then
          match processString s1 with
          | Except.ok v => kset keys key (Value.vStr v)
          | Except.error _ => keys
        else
          let s2 :=
            match s1.findIdx? (fun c => c = '/') with
            | some j => s1.take j
            | none => s1
          let value := trimSpace s2
          if value = [] then kset keys key Value.vNull
          else if isDigitChar first ∨ first = '+' ∨ first = '-' then
            if containsDotDE value then
              kset keys key (Value.vFloat (parseGoFloat (replaceFirstD value)))
            else kset keys key (Value.vInt (parseInt32 value))
          else if first = 'T' then kset keys key (Value.vBool true)
          else if first = 'F' then kset keys key (Value.vBool false)
          else if first = '(' then
            let xy := scanCplx value
            kset keys key (Value.vCplx xy.1 xy.2)
          else keys

/-- The 36-card block loop of `NewHeader`: `s := string(buf[i*80:(i+1)*80])`
for `i < 36`, folding the key updates. -/
def processBlock (keys : KeyMap) (buf : List Nat) : KeyMap :=
  (List.range 36).foldl (fun ks i => processCard ks ((buf.drop (i * 80)).take 80)) keys

/-- The state of a `fits.Reader`: the 2880-byte block buffer with its
`left`/`right` window, the 8-byte `elem` scratch buffer for typed reads,
the remaining bytes of the wrapped `io.Reader` (a `bytes.Reader`-like
source: each `Read` returns up to 2880 bytes and reports `io.EOF` exactly
when no bytes remain), and the `eof` flag. -/
structure Rdr : Type where
  buf : List Nat
  elem : List Nat
  left : Nat
  right : Nat
  src : List Nat
  eof : Bool

/-- Go `NewReader`: a zeroed 2880-byte buffer and 8-byte elem buffer. -/
def mkRdr (src : List Nat) : Rdr :=
  { buf := List.replicate 2880 0, elem := List.replicate 8 0,
    left := 0, right := 0, src := src, eof := false }

/-- The loop of Go `Reader.Read`: copy from `buf[left:right]`, and page in
the next block from the source when more bytes are needed.  If the source
is exhausted, the bytes gathered so far are returned and `eof` is set (Go
returns `(n, nil)` after seeing `io.EOF`); a genuine short read never
produces an error with a `bytes.Reader`-style source. -/
def rdrReadAux (fuel : Nat) (r : Rdr) (needed : Nat) (acc : List Nat) :
    List Nat × Rdr :=
  match fuel with
  | 0 => (acc, r)
  | fuel + 1 =>
    let window := (r.buf.drop r.left).take (r.right - r.left)
    let k := min needed (listLen window)
    let acc2 := acc ++ window.take k
    let r2 : Rdr := { r with left := r.left + k }
    if needed - k = 0 then (acc2, r2)
    else if r2.src = [] then (acc2, { r2 with left := 0, right := 0, eof := true })
    else
      let blk := r2.src.take 2880
      let bl := listLen blk
      let r3 : Rdr :=
        { r2 with buf := blk ++ r2.buf.drop bl, left := 0,
                  right := bl, src := r2.src.drop 2880 }
      rdrReadAux fuel r3 (needed - k) acc2

/-- Go `Reader.Read(p)` for a destination of length `n`: the bytes read
(possibly fewer than `n` at end of stream) and the updated reader.  The
fuel `r.src.length + 1` bounds the paging loop: every page-in removes at
least one byte from the source, and the loop otherwise returns. -/
def rdrRead (r : Rdr) (n : Nat) : List Nat × Rdr :=
  rdrReadAux (listLen r.src + 1) r n []

/-- Go `Reader.NextPage` in the successful case: read one fresh block into
`buf` (a short final block leaves the tail of the previous buffer in place,
as `copy` semantics do) and mark the whole window consumed
(`left = right`). -/
def nextPageF (r : Rdr) : List Nat × Rdr :=
  let k := min 2880 (listLen r.src)
  let buf2 := r.src.take k ++ r.buf.drop k
  (buf2, { r with buf := buf2, left := k, right := k, src := r.src.drop 2880 })

/-- One HDU: the decoded header keys, the `Naxis` dimension list, the data
payload, the accessor bookkeeping (`list` and `fields` in Go), the class
tag, the `blank` value, and which `Blank` closure `loadData` bound.
Go binds `At`/`IntAt`/`FloatAt`/`Blank` as closures over the same state;
they are modelled as the derived functions `uAt`, `uIntAt`, `uFloatAt` and
`uBlank` below. -/
inductive PixData : Type where
  | u8 (l : List Nat) : PixData
  | i16 (l : List Int) : PixData
  | i32 (l : List Int) : PixData
  | i64 (l : List Int) : PixData
  | f32 (l : List FVal) : PixData
  | f64 (l : List FVal) : PixData

/-- Which closure `loadData` assigned to `Unit.Blank` (none before
`loadData` runs, i.e. the field is the nil function). -/
inductive BlankMode : Type where
  | unbound : BlankMode
  | intBlank : BlankMode
  | floatNaN : BlankMode
  | never : BlankMode

/-- The payload in `Unit.Data`: nothing yet, the empty `[]int` sentinel of
the `len(Naxis) == 0` branch, a typed pixel buffer, or a table byte blob. -/
inductive DataPayload : Type where
  | noData : DataPayload
  | intEmpty : DataPayload
  | pix (p : PixData) : DataPayload
  | blob (bytes : List Nat) : DataPayload

/-- A table accessor (`FieldFunc`): Go returns `interface \x7b\x7d`, nil for
an out-of-range row; a panic inside the accessor is `Out.crash`. -/
def FieldFn : Type := Int → Out Value

/-- The closure `func(int) interface\x7b\x7d \x7b return nil \x7d` that
`Field` returns for an unknown column. -/
def nullFieldFn : FieldFn := fun _ => Out.ok Value.vNull

/-- The `fits.Unit` record. `lst` is Go's `list` slice (a `none` entry is a
nil `FieldFunc`), `flds` is the `fields` map (most recent binding first). -/
structure HUnit : Type where
  keys : KeyMap
  naxis : List Int
  data : DataPayload
  lst : List (Option FieldFn)
  flds : List (List Char × FieldFn)
  cls : List Char
  blank : Int
  blankMode : BlankMode

/-- A freshly parsed header unit (only `Keys` and `Naxis` populated). -/
def mkUnit (keys : KeyMap) (naxis : List Int) : HUnit :=
  { keys := keys, naxis := naxis, data := DataPayload.noData, lst := [],
    flds := [], cls := [], blank := 0, blankMode := BlankMode.unbound }

/-- The default (zero) unit, used only to state theorems via projections. -/
def defUnit : HUnit := mkUnit [] []

/-- The `NAXIS1..NAXISn` collection at the end of `NewHeader`:
`h.Naxis[i] = Keys[Nth("NAXIS", i+1)].(int)`; a missing or non-integer key
is a type-assertion panic, a negative `n` a `make` panic. -/
def collectNaxis (keys : KeyMap) (n : Int) : Out (List Int) :=
  if n < 0 then Out.crash (lc "makeslice: len out of range")
  else
    (List.range n.toNat).foldr
      (fun i acc =>
        match klookup keys (Nth (lc "NAXIS") ((i : Int) + 1)) with
        | some (Value.vInt v) =>
            match acc with
            | Out.ok l => Out.ok (v :: l)
            | Out.crash m => Out.crash m
        | _ => Out.crash (lc "interface conversion: interface is not int"))
      (Out.ok [])

/-- The block loop of Go `NewHeader`: page in blocks of 36 cards until the
`END` key appears, then build the unit (collecting `Naxis` if a `NAXIS`
integer key exists).  A `NextPage` error (the source is exhausted) is the
`Except.error` case, which `Open` converts to clean loop exit. -/
def newHeaderLoop (fuel : Nat) (r : Rdr) (keys : KeyMap) :
    Out (Except (List Char) (HUnit × Rdr)) :=
  match fuel with
  | 0 => Out.ok (Except.error (lc "EOF"))
  | fuel + 1 =>
    if r.src.isEmpty then Out.ok (Except.error (lc "EOF"))
    else
      let pr := nextPageF r
      let keys2 := processBlock keys pr.1
      if (klookup keys2 (lc "END")).isSome then
        match klookup keys2 (lc "NAXIS") with
        | none => Out.ok (Except.ok (mkUnit keys2 [], pr.2))
        | some (Value.vInt n) =>
            match collectNaxis keys2 n with
            | Out.crash m => Out.crash m
            | Out.ok nx => Out.ok (Except.ok (mkUnit keys2 nx, pr.2))
        | some _ => Out.crash (lc "interface conversion: interface is not int")
      else newHeaderLoop fuel pr.2 keys2

/-- Go `Reader.NewHeader`: start from a fresh key map.  The fuel
`r.src.length + 1` bounds the block loop (each iteration consumes at least
one source byte, and with an empty source the loop reports the `NextPage`
error, exactly what the fuel-0 case returns). -/
def newHeader (r : Rdr) : Out (Except (List Char) (HUnit × Rdr)) :=
  newHeaderLoop (listLen r.src + 1) r []

/-- Two's-complement reinterpretation of a `w`-bit unsigned value, as the
`int16`/`int32`/`int64` casts in `ReadInt16/32/64` perform. -/
def toSigned (w : Nat) (n : Nat) : Int :=
  if n < 2 ^ (w - 1) then (n : Int) else (n : Int) - 2 ^ w

/-- Big-endian byte composition (the shift-or chains in the typed reads). -/
def beNat (bytes : List Nat) : Nat :=
  bytes.foldl (fun acc b => acc * 256 + b) 0

/-- `math.Float32frombits`: exact IEEE-754 single-precision decode. -/
def ieee32 (bits : Nat) : FVal :=
  let sign : Nat := bits / 2 ^ 31
  let e : Nat := (bits / 2 ^ 23) % 2 ^ 8
  let m : Nat := bits % 2 ^ 23
  if e = 255 then
    if m = 0 then FVal.inf (sign = 1) else FVal.nan
  else
    let mag : Rat :=
      if e = 0 then (m : Rat) / ((2 ^ 149 : Nat) : Rat)
      else ((2 ^ 23 + m : Nat) : Rat) * (((2 ^ e : Nat) : Rat) / ((2 ^ 150 : Nat) : Rat))
    FVal.num (if sign = 1 then -mag else mag)

/-- `math.Float64frombits`: exact IEEE-754 double-precision decode. -/
def ieee64 (bits : Nat) : FVal :=
  let sign : Nat := bits / 2 ^ 63
  let e : Nat := (bits / 2 ^ 52) % 2 ^ 11
  let m : Nat := bits % 2 ^ 52
  if e = 2047 then
    if m = 0 then FVal.inf (sign = 1) else FVal.nan
  else
    let mag : Rat :=
      if e = 0 then (m : Rat) / ((2 ^ 1074 : Nat) : Rat)
      else ((2 ^ 52 + m : Nat) : Rat) * (((2 ^ e : Nat) : Rat) / ((2 ^ 1075 : Nat) : Rat))
    FVal.num (if sign = 1 then -mag else mag)

/-- One typed read through the shared `elem` scratch buffer: `Read` fills
the first bytes of `elem`, leaving stale bytes beyond a short read in
place, and the value is decoded from the first `sz` bytes. -/
def readElem (r : Rdr) (sz : Nat) : List Nat × Rdr :=
  let pr := rdrRead r sz
  let elem2 := pr.1 ++ r.elem.drop pr.1.length
  (elem2.take sz, { pr.2 with elem := elem2 })

/-- `sz`-byte chunks for `n` consecutive typed reads (the per-element read
loops of `loadData`). -/
def readChunks (r : Rdr) (n : Nat) (sz : Nat) : List (List Nat) × Rdr :=
  match n with
  | 0 => ([], r)
  | n + 1 =>
      let pr := readElem r sz
      let rest := readChunks pr.2 n sz
      (pr.1 :: rest.1, rest.2)

/-- `prod := 1; for _, x := range h.Naxis \x7b prod *= x \x7d`. -/
def prodNaxis (naxis : List Int) : Int := naxis.foldl (fun a x => a * x) 1

/-- Go `Unit.index`: `for i := len(Naxis)-1; i >= 0; i-- \x7b index =
index*Naxis[i] + a[i] \x7d`, i.e. a fold over the axis/coordinate pairs
taken from the last axis to the first. -/
def goIndex (naxis : List Int) (a : List Int) : Int :=
  ((naxis.zip a).reverse).foldl (fun acc p => acc * p.1 + p.2) 0

/-- The axis-0-fastest offset as the specification words it:
`fold_right(coords, Naxis, 0, fun acc (c,n) => acc*n + c)`. -/
def pixelIndexSpec (coords naxis : List Int) : Int :=
  (coords.zip naxis).foldr (fun p acc => acc * p.2 + p.1) 0

/-- `index` with the panics of the Go closure: too few coordinates is an
index-out-of-range panic on `a[i]`. -/
def uIndexOut (naxis : List Int) (a : List Int) : Out Int :=
  if a.length < naxis.length then Out.crash (lc "index out of range")
  else Out.ok (goIndex naxis a)

/-- Element fetch from a flat buffer with Go's bounds panic. -/
def listGetOut (l : List Value) (i : Int) : Out Value :=
  if i < 0 then Out.crash (lc "index out of range")
  else
    match l.get? i.toNat with
    | some v => Out.ok v
    | none => Out.crash (lc "index out of range")

/-- The raw values of a pixel buffer as `Value`s (what `At` returns). -/
def pixValues (p : PixData) : List Value :=
  match p with
  | PixData.u8 l => l.map (fun b => Value.vInt (b : Int))
  | PixData.i16 l => l.map Value.vInt
  | PixData.i32 l => l.map Value.vInt
  | PixData.i64 l => l.map Value.vInt
  | PixData.f32 l => l.map Value.vFloat
  | PixData.f64 l => l.map Value.vFloat

/-- Go `int64(x)` for a float64 `x`: truncation toward zero; NaN,
infinities and overflow produce the amd64 sentinel minimum value. -/
def i64OfF : FVal → Int
  | FVal.num q =>
      let t := q.num / (q.den : Int)
      if t > 9223372036854775807 ∨ t < -9223372036854775808 then
        -9223372036854775808
      else t
  | FVal.inf _ => -9223372036854775808
  | FVal.nan => -9223372036854775808

/-- `Unit.At`, derived from the closure `loadData` bound: defined exactly
when a pixel buffer was loaded, a nil-function panic otherwise. -/
def uAt (u : HUnit) (a : List Int) : Out Value :=
  match u.data with
  | DataPayload.pix p =>
      match uIndexOut u.naxis a with
      | Out.crash m => Out.crash m
      | Out.ok i => listGetOut (pixValues p) i
  | _ => Out.crash (lc "invalid memory address or nil pointer dereference")

/-- `Unit.IntAt`: the widening integer accessor (`int64(data[index])`),
including the zero closure bound by the `len(Naxis) == 0` branch. -/
def uIntAt (u : HUnit) (a : List Int) : Out Int :=
  match u.data with
  | DataPayload.intEmpty => Out.ok 0
  | DataPayload.pix p =>
      match uIndexOut u.naxis a with
      | Out.crash m => Out.crash m
      | Out.ok i =>
          match listGetOut (pixValues p) i with
          | Out.crash m => Out.crash m
          | Out.ok (Value.vInt v) => Out.ok v
          | Out.ok (Value.vFloat x) => Out.ok (i64OfF x)
          | Out.ok _ => Out.crash (lc "unreachable")
  | _ => Out.crash (lc "invalid memory address or nil pointer dereference")

/-- `Unit.FloatAt`: the widening float accessor (`float64(data[index])`),
including the zero closure of the `len(Naxis) == 0` branch. -/
def uFloatAt (u : HUnit) (a : List Int) : Out FVal :=
  match u.data with
  | DataPayload.intEmpty => Out.ok (FVal.num 0)
  | DataPayload.pix p =>
      match uIndexOut u.naxis a with
      | Out.crash m => Out.crash m
      | Out.ok i =>
          match listGetOut (pixValues p) i with
          | Out.crash m => Out.crash m
          | Out.ok (Value.vInt v) => Out.ok (FVal.num (v : Rat))
          | Out.ok (Value.vFloat x) => Out.ok x
          | Out.ok _ => Out.crash (lc "unreachable")
  | _ => Out.crash (lc "invalid memory address or nil pointer dereference")

/-- `Unit.Blank`, derived from the closure selection at the end of
`loadData`: equality with `blank` for integral data with a defined `BLANK`
key, the NaN test for float data, constantly false otherwise, and the nil
function before `loadData` bound anything. -/
def uBlank (u : HUnit) (a : List Int) : Out Bool :=
  match u.blankMode with
  | BlankMode.intBlank =>
      match uIntAt u a with
      | Out.crash m => Out.crash m
      | Out.ok v => Out.ok (v = u.blank)
  | BlankMode.floatNaN =>
      match uFloatAt u a with
      | Out.crash m => Out.crash m
      | Out.ok x => Out.ok (x = FVal.nan)
  | BlankMode.never => Out.ok false
  | BlankMode.unbound => Out.crash (lc "invalid memory address or nil pointer dereference")

/-- Go `loadData`: allocate and fill the typed pixel buffer for the
header's `BITPIX`, then bind the `Blank` closure.  The `len(Naxis) == 0`
early return leaves `Data = []int\x7b\x7d` with the zero `IntAt`/`FloatAt`
closures and no `At`/`Blank`.  An invalid `BITPIX` falls through the switch
(no data read) but still binds `Blank`. -/
def loadData (u : HUnit) (r : Rdr) : Out (HUnit × Rdr) :=
  if u.naxis = [] then
    Out.ok ({ u with data := DataPayload.intEmpty }, r)
  else
    match klookup u.keys (lc "BITPIX") with
    | some (Value.vInt bp) =>
        let prod := prodNaxis u.naxis
        if prod < 0 then Out.crash (lc "makeslice: len out of range")
        else
          let n := prod.toNat
          let loaded : DataPayload × Rdr :=
            if bp = 8 then
              let pr := readChunks r n 1
              (DataPayload.pix (PixData.u8 (pr.1.map (fun c => c.headD 0))), pr.2)
            else if bp = 16 then
              let pr := readChunks r n 2
              (DataPayload.pix (PixData.i16 (pr.1.map (fun c => toSigned 16 (beNat (c.take 2))))), pr.2)
            else if bp = 32 then
              let pr := readChunks r n 4
              (DataPayload.pix (PixData.i32 (pr.1.map (fun c => toSigned 32 (beNat (c.take 4))))), pr.2)
            else if bp = 64 then
              let pr := readChunks r n 8
              (DataPayload.pix (PixData.i64 (pr.1.map (fun c => toSigned 64 (beNat (c.take 8))))), pr.2)
            else if bp = -32 then
              let pr := readChunks r n 4
              (DataPayload.pix (PixData.f32 (pr.1.map (fun c => ieee32 (beNat (c.take 4))))), pr.2)
            else if bp = -64 then
              let pr := readChunks r n 8
              (DataPayload.pix (PixData.f64 (pr.1.map (fun c => ieee64 (beNat (c.take 8))))), pr.2)
            else (DataPayload.noData, r)
          match klookup u.keys (lc "BLANK") with
          | some bv =>
              if bp > 0 then
                match bv with
                | Value.vInt b =>
                    let u2 : HUnit :=
                      { u with data := loaded.1, blank := b, blankMode := BlankMode.intBlank }
                    Out.ok (u2, loaded.2)
                | _ => Out.crash (lc "interface conversion: interface is not int")
              else if bp < 0 then
                Out.ok ({ u with data := loaded.1, blankMode := BlankMode.floatNaN }, loaded.2)
              else
                Out.ok ({ u with data := loaded.1, blankMode := BlankMode.never }, loaded.2)
          | none =>
              if bp < 0 then
                Out.ok ({ u with data := loaded.1, blankMode := BlankMode.floatNaN }, loaded.2)
              else
                Out.ok ({ u with data := loaded.1, blankMode := BlankMode.never }, loaded.2)
    | _ => Out.crash (lc "interface conversion: interface is not int")

/-- `math.MaxFloat64` as an exact rational. -/
def maxFloat64 : Rat := ((2 ^ 1024 - 2 ^ 971 : Nat) : Rat)

/-- Go float64 `<` with infinities (NaN never occurs in the positions the
`Stats` loops compare, since NaN elements are skipped first). -/
def fltLt : FVal → FVal → Bool
  | FVal.nan, _ => false
  | _, FVal.nan => false
  | FVal.inf a, FVal.inf b => a ∧ ¬ b
  | FVal.inf a, FVal.num _ => a
  | FVal.num _, FVal.inf b => ¬ b
  | FVal.num a, FVal.num b => a < b

/-- The integral `Stats` loop: skip elements equal to `blank`, track
minimum and maximum (compared as float64, exact here). -/
def intStatsLoop (l : List Int) (blank : Int) (n : Nat) : Out (Rat × Rat) :=
  (List.range n).foldl
    (fun acc i =>
      match acc with
      | Out.crash m => Out.crash m
      | Out.ok mm =>
          match l.get? i with
          | none => Out.crash (lc "index out of range")
          | some x =>
              let mn := if x ≠ blank ∧ (x : Rat) < mm.1 then (x : Rat) else mm.1
              let mx := if x ≠ blank ∧ (x : Rat) > mm.2 then (x : Rat) else mm.2
              Out.ok (mn, mx))
    (Out.ok (maxFloat64, -maxFloat64))

/-- The float `Stats` loop: skip NaN elements, track minimum and maximum. -/
def fltStatsLoop (l : List FVal) (n : Nat) : Out (FVal × FVal) :=
  (List.range n).foldl
    (fun acc i =>
      match acc with
      | Out.crash m => Out.crash m
      | Out.ok mm =>
          match l.get? i with
          | none => Out.crash (lc "index out of range")
          | some x =>
              let mn := if x ≠ FVal.nan ∧ fltLt x mm.1 then x else mm.1
              let mx := if x ≠ FVal.nan ∧ fltLt mm.2 x then x else mm.2
              Out.ok (mn, mx))
    (Out.ok (FVal.num maxFloat64, FVal.num (-maxFloat64)))

/-- Go `Unit.Stats`: early (0,0) return when the element count is 1, then
the per-`BITPIX` min/max loop.  Note the integral loops compare each
element against `h.blank`, whose zero value 0 is used even when no `BLANK`
key was ever seen. -/
def uStats (u : HUnit) : Out (FVal × FVal) :=
  let prod := prodNaxis u.naxis
  if prod = 1 then Out.ok (FVal.num 0, FVal.num 0)
  else
    match klookup u.keys (lc "BITPIX") with
    | some (Value.vInt bp) =>
        let n := prod.toNat
        if bp = 8 then
          match u.data with
          | DataPayload.pix (PixData.u8 l) =>
              match intStatsLoop (l.map (fun b => (b : Int))) u.blank n with
              | Out.crash m => Out.crash m
              | Out.ok mm => Out.ok (FVal.num mm.1, FVal.num mm.2)
          | _ => Out.crash (lc "interface conversion: interface is not byte slice")
        else if bp = 16 then
          match u.data with
          | DataPayload.pix (PixData.i16 l) =>
              match intStatsLoop l u.blank n with
              | Out.crash m => Out.crash m
              | Out.ok mm => Out.ok (FVal.num mm.1, FVal.num mm.2)
          | _ => Out.crash (lc "interface conversion: interface is not int16 slice")
        else if bp = 32 then
          match u.data with
          | DataPayload.pix (PixData.i32 l) =>
              match intStatsLoop l u.blank n with
              | Out.crash m => Out.crash m
              | Out.ok mm => Out.ok (FVal.num mm.1, FVal.num mm.2)
          | _ => Out.crash (lc "interface conversion: interface is not int32 slice")
        else if bp = 64 then
          match u.data with
          | DataPayload.pix (PixData.i64 l) =>
              match intStatsLoop l u.blank n with
              | Out.crash m => Out.crash m
              | Out.ok mm => Out.ok (FVal.num mm.1, FVal.num mm.2)
          | _ => Out.crash (lc "interface conversion: interface is not int64 slice")
        else if bp = -32 then
          match u.data with
          | DataPayload.pix (PixData.f32 l) => fltStatsLoop l n
          | _ => Out.crash (lc "interface conversion: interface is not float32 slice")
        else if bp = -64 then
          match u.data with
          | DataPayload.pix (PixData.f64 l) => fltStatsLoop l n
          | _ => Out.crash (lc "interface conversion: interface is not float64 slice")
        else Out.ok (FVal.num maxFloat64, FVal.num (-maxFloat64))
    | _ => Out.crash (lc "interface conversion: interface is not int")

/-- Byte read from a table accessor's private `fits.Reader`: that reader
wraps the shared data blob with `right = len(buf)` and a nil underlying
`io.Reader`, so positioning past the blob is a slice-bounds panic and a
read needing more bytes than remain pages through the nil reader and
panics. -/
def blobRead (blob : List Nat) (blobLen pos n : Nat) : Out (List Nat × Nat) :=
  if pos > blobLen then Out.crash (lc "slice bounds out of range")
  else if blobLen - pos < n then
    Out.crash (lc "invalid memory address or nil pointer dereference")
  else Out.ok (((blob.drop pos).take n, pos + n))

/-- `count` consecutive `sz`-byte reads from the blob (the element loops of
the binary accessors).  Short reads never deliver stale `elem` bytes here
because an insufficient read already panics via the nil reader. -/
def blobChunks (blob : List Nat) (blobLen : Nat) (pos : Nat) (count sz : Nat) :
    Out (List (List Nat) × Nat) :=
  match count with
  | 0 => Out.ok ([], pos)
  | count + 1 =>
      match blobRead blob blobLen pos sz with
      | Out.crash m => Out.crash m
      | Out.ok (c, pos2) =>
          match blobChunks blob blobLen pos2 count sz with
          | Out.crash m => Out.crash m
          | Out.ok (cs, pos3) => Out.ok (c :: cs, pos3)

/-- The element byte width `l` assigned per type code in `accessorBin`. -/
def elemLen (code : Char) : Nat :=
  if code = 'A' ∨ code = 'B' ∨ code = 'L' then 1
  else if code = 'I' then 2
  else if code = 'J' ∨ code = 'E' then 4
  else if code = 'K' ∨ code = 'D' ∨ code = 'C' then 8
  else if code = 'M' then 16
  else 0

/-- The default display string `disp` assigned per type code in
`accessorBin`. -/
def binDisp (code : Char) (rpt : Nat) : List Char :=
  if code = 'A' then 'A' :: decOfNat rpt
  else if code = 'B' then lc "I3"
  else if code = 'L' then lc "B1"
  else if code = 'I' then lc "I6"
  else if code = 'J' then lc "I11"
  else if code = 'K' then lc "I20"
  else lc "F14.7"

/-- Decode one binary field value at byte `pos` of the blob: the helper `f`
of `accessorBin` for each supported code, with `repeat = 1` yielding a
scalar (except code `A`, always a string) and `repeat > 1` a fixed-size
slice. -/
def decodeBinVal (blob : List Nat) (blobLen pos : Nat) (code : Char) (rpt : Nat) :
    Out Value :=
  if code = 'A' then
    match blobRead blob blobLen pos rpt with
    | Out.crash m => Out.crash m
    | Out.ok (bs, _) => Out.ok (Value.vStr (bs.map charOfByte))
  else
    match blobChunks blob blobLen pos rpt (elemLen code) with
    | Out.crash m => Out.crash m
    | Out.ok (cs, _) =>
        let one : List Nat → Value := fun c =>
          if code = 'B' then Value.vInt ((c.headD 0 : Nat) : Int)
          else if code = 'L' then Value.vBool (c.headD 0 ≠ 0)
          else if code = 'I' then Value.vInt (toSigned 16 (beNat (c.take 2)))
          else if code = 'J' then Value.vInt (toSigned 32 (beNat (c.take 4)))
          else if code = 'K' then Value.vInt (toSigned 64 (beNat (c.take 8)))
          else if code = 'E' then Value.vFloat (ieee32 (beNat (c.take 4)))
          else if code = 'D' then Value.vFloat (ieee64 (beNat (c.take 8)))
          else if code = 'C' then
            Value.vCplx (ieee32 (beNat (c.take 4))) (ieee32 (beNat ((c.drop 4).take 4)))
          else if code = 'M' then
            Value.vCplx (ieee64 (beNat (c.take 8))) (ieee64 (beNat ((c.drop 8).take 8)))
          else Value.vNull
        match cs.map one with
        | [v] => if rpt = 1 then Out.ok v else Out.ok (Value.vArr [v])
        | vs => Out.ok (Value.vArr vs)

/-- Go `accessorBin`: capture the current column byte offset `c = *col`,
build the per-row accessor (row-range check against `Naxis[1]`, then decode
at `row*Naxis[0] + c`), pick the default display string, and advance the
cursor by `l * repeat`.  Codes X, P and Q panic. -/
def accessorBin (naxis : List Int) (blob : List Nat) (blobLen : Nat)
    (code : Char) (rpt : Nat) (col : Nat) : Out (FieldFn × List Char × Nat) :=
  if code = 'X' ∨ code = 'P' ∨ code = 'Q' then
    Out.crash (lc "Binary table forms X, P and Q are not supported")
  else
    let c := col
    let fn : FieldFn := fun row =>
      match naxis with
      | n0 :: n1 :: _ =>
          if row < 0 ∨ row ≥ n1 then Out.ok Value.vNull
          else
            let off : Int := row * n0 + (c : Int)
            if off < 0 then Out.crash (lc "slice bounds out of range")
            else decodeBinVal blob blobLen off.toNat code rpt
      | _ => Out.crash (lc "index out of range")
    Out.ok (fn, binDisp code rpt, col + elemLen code * rpt)

/-- Go `accessorText`: the text-table accessor for codes A (untrimmed
string), I (trimmed ASCII int, 32-bit parse) and D/E/F (trimmed ASCII
float, first `D` replaced by `E`); any other code panics.  The captured
column start is `*col - 1` (`TBCOL` is 1-based). -/
def accessorText (naxis : List Int) (blob : List Nat) (blobLen : Nat)
    (code : Char) (rpt : Int) (col : Int) : Out (FieldFn × List Char) :=
  if code = 'A' ∨ code = 'I' ∨ code = 'D' ∨ code = 'E' ∨ code = 'F' then
    let c : Int := col - 1
    let disp : List Char :=
      if code = 'A' then 'A' :: decOfInt rpt
      else if code = 'I' then 'I' :: decOfInt rpt
      else lc "F14.7"
    let fn : FieldFn := fun row =>
      match naxis with
      | n0 :: n1 :: _ =>
          if row < 0 ∨ row ≥ n1 then Out.ok Value.vNull
          else if rpt < 0 then Out.crash (lc "makeslice: len out of range")
          else
            let off : Int := row * n0 + c
            if off < 0 then Out.crash (lc "slice bounds out of range")
            else
              match blobRead blob blobLen off.toNat rpt.toNat with
              | Out.crash m => Out.crash m
              | Out.ok (bs, _) =>
                  let s := bs.map charOfByte
                  if code = 'A' then Out.ok (Value.vStr s)
                  else if code = 'I' then Out.ok (Value.vInt (parseInt32 (trimSpace s)))
                  else Out.ok (Value.vFloat (parseGoFloat (replaceFirstD (trimSpace s))))
      | _ => Out.crash (lc "index out of range")
    Out.ok (fn, disp)
  else Out.crash (lc "Unsupported TFORM in an Ascii table")

/-- The binary type-code set scanned by
`strings.IndexAny(form, "ABCDEIJKLMPQX")`. -/
def isBinCode (c : Char) : Bool :=
  c = 'A' ∨ c = 'B' ∨ c = 'C' ∨ c = 'D' ∨ c = 'E' ∨ c = 'I' ∨ c = 'J' ∨
  c = 'K' ∨ c = 'L' ∨ c = 'M' ∨ c = 'P' ∨ c = 'Q' ∨ c = 'X'

/-- The state threaded through the `loadTable` field loop: the key map, the
`fields` name map, the `list` accessor slice (built left to right, one
entry per column, `none` for a vanished column), the running byte cursor
`col`, and `infos`, a specification-level record of the layout decisions:
for each processed binary column `some (repeat, code, capturedOffset)`, and
`none` for a skipped (`repeat = 0`) or text column.  `infos` is written by
nothing in the Go source; it only observes what `accessorBin` captured. -/
structure LTSt : Type where
  keys : KeyMap
  flds : List (List Char × FieldFn)
  lst : List (Option FieldFn)
  col : Nat
  infos : List (Option (Nat × Char × Nat))

/-- The name-registration part of one `loadTable` iteration: a present
`TTYPE\x7bi+1\x7d` string becomes the `fields` key and the `#name` index key
is set; a present non-string `TTYPE` is a type-assertion panic; an absent
one synthesizes the default `COL\x7bi+1\x7d` name (stored under the `TTYPE`
key) without touching `fields`. -/
def ltRegisterKeys (st : LTSt) (i : Nat) (fn : FieldFn) :
    Out (KeyMap × List (List Char × FieldFn)) :=
  match klookup st.keys (Nth (lc "TTYPE") ((i : Int) + 1)) with
  | some (Value.vStr name) =>
      Out.ok (kset st.keys ('#' :: name) (Value.vInt ((i : Int) + 1)),
              (name, fn) :: st.flds)
  | some _ => Out.crash (lc "interface conversion: interface is not string")
  | none =>
      Out.ok (kset st.keys (Nth (lc "TTYPE") ((i : Int) + 1))
                (Value.vStr (Nth (lc "COL") ((i : Int) + 1))), st.flds)

/-- The registration tail of one `loadTable` iteration: store the accessor
in `list`, register the name (see `ltRegisterKeys`), and default
`TDISP\x7bi+1\x7d` to the accessor's `disp` when the header has none. -/
def ltRegister (st : LTSt) (i : Nat) (fn : FieldFn) (disp : List Char)
    (col2 : Nat) (info : Option (Nat × Char × Nat)) : Out LTSt :=
  match ltRegisterKeys st i fn with
  | Out.crash m => Out.crash m
  | Out.ok (keys2, flds2) =>
      let tk := Nth (lc "TDISP") ((i : Int) + 1)
      let keys3 :=
        if (klookup keys2 tk).isNone then kset keys2 tk (Value.vStr disp) else keys2
      Out.ok { keys := keys3, flds := flds2, lst := st.lst ++ [some fn],
               col := col2, infos := st.infos ++ [info] }

/-- The repeat count of a binary `TFORM` whose first type-code letter is
at position `j`: the parsed digits before it, defaulting to 1 when the
code letter comes first. -/
def binRepeat (form : List Char) (j : Nat) : Int :=
  if j > 0 then parseInt32 (form.take j) else 1

/-- One iteration of the `loadTable` field loop on column `i`: parse
`TFORM\x7bi+1\x7d`, build the accessor (binary or text form), and register
it.  A binary repeat count of zero (or negative) skips the column entirely
(`continue`): no accessor, no name registration, cursor unmoved. -/
def ltStep (naxis : List Int) (blob : List Nat) (blobLen : Nat) (bin : Bool)
    (st : LTSt) (i : Nat) : Out (Except (List Char) LTSt) :=
  match klookup st.keys (Nth (lc "TFORM") ((i : Int) + 1)) with
  | some (Value.vStr form) =>
      if bin then
        match form.findIdx? isBinCode with
        | none => Out.ok (Except.error (lc "TFROM has invalid format (binary)"))
        | some j =>
            if binRepeat form j > 0 then
              match accessorBin naxis blob blobLen (form.getD j ' ')
                  (binRepeat form j).toNat st.col with
              | Out.crash m => Out.crash m
              | Out.ok (fn, disp, col2) =>
                  match ltRegister st i fn disp col2
                      (some ((binRepeat form j).toNat, form.getD j ' ', st.col)) with
                  | Out.crash m => Out.crash m
                  | Out.ok st2 => Out.ok (Except.ok st2)
            else
              Out.ok (Except.ok
                { st with lst := st.lst ++ [none], infos := st.infos ++ [none] })
      else
        let j := match form.findIdx? (fun c => c = '.') with
                 | some j => j
                 | none => form.length
        let rep : Int := parseInt32 ((form.drop 1).take (j - 1))
        match klookup st.keys (Nth (lc "TBCOL") ((i : Int) + 1)) with
        | some (Value.vInt tb) =>
            match form with
            | [] => Out.crash (lc "index out of range")
            | c0 :: _ =>
                match accessorText naxis blob blobLen c0 rep tb with
                | Out.crash m => Out.crash m
                | Out.ok (fn, disp) =>
                    match ltRegister st i fn disp tb.toNat none with
                    | Out.crash m => Out.crash m
                    | Out.ok st2 => Out.ok (Except.ok st2)
        | _ => Out.crash (lc "interface conversion: interface is not int")
  | _ => Out.crash (lc "interface conversion: interface is not string")

/-- The field loop of Go `loadTable`: run `ltStep` on columns
`i, i + 1, ...` for `n` iterations, stopping at the first Go error or
panic. -/
def ltLoop (naxis : List Int) (blob : List Nat) (blobLen : Nat) (bin : Bool)
    (st : LTSt) (i : Nat) (n : Nat) : Out (Except (List Char) LTSt) :=
  match n with
  | 0 => Out.ok (Except.ok st)
  | n + 1 =>
      match ltStep naxis blob blobLen bin st i with
      | Out.crash m => Out.crash m
      | Out.ok (Except.error m) => Out.ok (Except.error m)
      | Out.ok (Except.ok st2) => ltLoop naxis blob blobLen bin st2 (i + 1) n

/-- Go `loadTable`: read `TFIELDS`, read the `Naxis[0] * Naxis[1]` raw
table bytes (a short stream leaves the zeroed allocation tail in place),
then run the field loop from byte cursor 0.  A loop error is returned to
`Open` (which stops, keeping the unit). -/
def loadTable (u : HUnit) (r : Rdr) (bin : Bool) :
    Out (Except (List Char) (HUnit × Rdr)) :=
  match klookup u.keys (lc "TFIELDS") with
  | some (Value.vInt tf) =>
      if tf < 0 then Out.crash (lc "makeslice: len out of range")
      else
        match u.naxis with
        | n0 :: n1 :: _ =>
            let sz := n0 * n1
            if sz < 0 then Out.crash (lc "makeslice: len out of range")
            else
              let pr := rdrRead r sz.toNat
              let blob := pr.1 ++ List.replicate (sz.toNat - listLen pr.1) 0
              match ltLoop u.naxis blob sz.toNat bin
                  { keys := u.keys, flds := [], lst := [], col := 0, infos := [] } 0 tf.toNat with
              | Out.crash m => Out.crash m
              | Out.ok (Except.error m) => Out.ok (Except.error m)
              | Out.ok (Except.ok stF) =>
                  let u2 : HUnit :=
                    { u with keys := stF.keys, data := DataPayload.blob blob,
                             lst := stF.lst, flds := stF.flds }
                  Out.ok (Except.ok (u2, pr.2))
        | _ => Out.crash (lc "index out of range")
  | _ => Out.crash (lc "interface conversion: interface is not int")

/-- The column designator `Field` and `Format` accept: a 0-based index or a
name. -/
inductive Col : Type where
  | idx (n : Int) : Col
  | name (s : List Char) : Col

/-- Go `Unit.Field`: an in-range index returns the `list` entry as is (which
may be the nil function, `none`); an unknown name or out-of-range index
falls through to the never-nil null accessor. -/
def Field (u : HUnit) : Col → Option FieldFn
  | Col.idx n =>
      if 0 ≤ n ∧ n < (u.lst.length : Int) then (u.lst.get? n.toNat).getD none
      else some nullFieldFn
  | Col.name s =>
      match List.lookup s u.flds with
      | some f => some f
      | none => some nullFieldFn

/-- The `NAXIS1..NAXISn` presence check shared by both verifiers: the first
missing (or non-integer) `NAXIS\x7bi\x7d` key produces the error
`"No NAXISi in the ... header"`. -/
def checkNaxisKeys (keys : KeyMap) (n : Int) (ctx : List Char) :
    Except (List Char) Unit :=
  (List.range n.toNat).foldl
    (fun acc i =>
      match acc with
      | Except.error m => Except.error m
      | Except.ok _ =>
          let s := Nth (lc "NAXIS") ((i : Int) + 1)
          match klookup keys s with
          | some (Value.vInt _) => Except.ok ()
          | _ => Except.error (lc "No " ++ s ++ lc " in the " ++ ctx ++ lc " header"))
    (Except.ok ())

/-- Go `verifyPrimary`: mandatory keys of a `SIMPLE` header. -/
def verifyPrimary (u : HUnit) : Except (List Char) Unit :=
  if (klookup u.keys (lc "SIMPLE")).isNone then
    Except.error (lc "No SIMPLE in the primary header")
  else
    match klookup u.keys (lc "BITPIX") with
    | some (Value.vInt n) =>
        if n ≠ 8 ∧ n ≠ 16 ∧ n ≠ 32 ∧ n ≠ 64 ∧ n ≠ -32 ∧ n ≠ -64 then
          Except.error (lc "Invalid BITPIX value")
        else
          match klookup u.keys (lc "NAXIS") with
          | some (Value.vInt nx) => checkNaxisKeys u.keys nx (lc "primary")
          | _ => Except.error (lc "No NAXIS in the primary header")
    | _ => Except.error (lc "No BITPIX in the primary header")

/-- Go `verifyExtension`: mandatory keys of an `XTENSION` header, plus the
`PCOUNT = 0` rule for IMAGE and the `BITPIX = 8`, `NAXIS = 2` rules for
TABLE/BINTABLE. -/
def verifyExtension (u : HUnit) : Except (List Char) Unit :=
  match klookup u.keys (lc "XTENSION") with
  | some (Value.vStr xten) =>
      match klookup u.keys (lc "BITPIX") with
      | some (Value.vInt n) =>
          if n ≠ 8 ∧ n ≠ 16 ∧ n ≠ 32 ∧ n ≠ 64 ∧ n ≠ -32 ∧ n ≠ -64 then
            Except.error (lc "Invalid BITPIX value")
          else
            match klookup u.keys (lc "NAXIS") with
            | some (Value.vInt naxis) =>
                match checkNaxisKeys u.keys naxis (lc "extended") with
                | Except.error m => Except.error m
                | Except.ok _ =>
                    match klookup u.keys (lc "PCOUNT") with
                    | some (Value.vInt pcount) =>
                        if (klookup u.keys (lc "GCOUNT")).bind
                            (fun v => match v with
                                      | Value.vInt g => some g
                                      | _ => none) = none then
                          Except.error (lc "No GCOUNT in the extended header")
                        else if xten = lc "IMAGE" then
                          if pcount ≠ 0 then
                            Except.error (lc "PCOUNT should be 0 in IMAGE header")
                          else Except.ok ()
                        else if xten = lc "TABLE" ∨ xten = lc "BINTABLE" then
                          if n ≠ 8 then
                            Except.error (lc "BITPIX should be 8 in TABLE/BINTABLE headers")
                          else if naxis ≠ 2 then
                            Except.error (lc "NAXIS should be 2 in TABLE/BINTABLE headers")
                          else Except.ok ()
                        else Except.ok ()
                    | _ => Except.error (lc "No PCOUNT in the extended header")
            | _ => Except.error (lc "No NAXIS in the extended header")
      | _ => Except.error (lc "No BITPIX in the extended header")
  | _ => Except.error (lc "No XTENSION in the extended header")

/-- `xten, ok := h.Keys["XTENSION"].(string)`: the string value if the key
holds one. -/
def strValOf : Option Value → Option (List Char)
  | some (Value.vStr s) => some s
  | _ => none

/-- The decode loop of Go `Open`.  The fuel argument only bounds the number
of iterations (each iteration consumes at least one source byte through
`NewHeader`, so the `src.length + 1` supplied by `OpenModel` never runs
out); the 0 case mirrors normal exit.  Error flow mirrors the source: every
`break` on a verification or load error still returns the units collected
so far, and the error value assigned inside the loop is the loop-local
`err` created by `h, err := b.NewHeader()` — it never reaches the caller
(see `OpenModel`). -/
def openLoop (fuel : Nat) (r : Rdr) (acc : List HUnit) : Out (List HUnit) :=
  match fuel with
  | 0 => Out.ok acc
  | fuel + 1 =>
      if r.eof then Out.ok acc
      else
        match newHeader r with
        | Out.crash m => Out.crash m
        | Out.ok (Except.error _) => Out.ok acc
        | Out.ok (Except.ok (h, r2)) =>
            if (klookup h.keys (lc "SIMPLE")).isSome then
              match verifyPrimary h with
              | Except.error _ => Out.ok (acc ++ [h])
              | Except.ok _ =>
                  let h2 : HUnit := { h with cls := lc "SIMPLE" }
                  match h2.naxis with
                  | [] => openLoop fuel r2 (acc ++ [h2])
                  | n0 :: _ =>
                      if n0 = 0 then Out.ok (acc ++ [h2])
                      else
                        match loadData h2 r2 with
                        | Out.crash m => Out.crash m
                        | Out.ok (h3, r3) => openLoop fuel r3 (acc ++ [h3])
            else
              match strValOf (klookup h.keys (lc "XTENSION")) with
              | some xten =>
                  match verifyExtension h with
                  | Except.error _ => Out.ok (acc ++ [h])
                  | Except.ok _ =>
                      let h2 : HUnit := { h with cls := xten }
                      if xten = lc "IMAGE" then
                        match h2.naxis with
                        | [] => openLoop fuel r2 (acc ++ [h2])
                        | _ :: _ =>
                            match loadData h2 r2 with
                            | Out.crash m => Out.crash m
                            | Out.ok (h3, r3) => openLoop fuel r3 (acc ++ [h3])
                      else if xten = lc "TABLE" then
                        match loadTable h2 r2 false with
                        | Out.crash m => Out.crash m
                        | Out.ok (Except.error _) => Out.ok (acc ++ [h2])
                        | Out.ok (Except.ok (h3, r3)) => openLoop fuel r3 (acc ++ [h3])
                      else if xten = lc "BINTABLE" then
                        match loadTable h2 r2 true with
                        | Out.crash m => Out.crash m
                        | Out.ok (Except.error _) => Out.ok (acc ++ [h2])
                        | Out.ok (Except.ok (h3, r3)) => openLoop fuel r3 (acc ++ [h3])
                      else openLoop fuel r2 (acc ++ [h2])
              | none => Out.ok (acc ++ [h])

/-- Go `Open`.  The error component of the result is the named return
`err` of the Go function: the short variable declaration
`h, err := b.NewHeader()` inside the loop shadows it, every later
`err = ...` inside the loop body assigns the shadowed variable, and the
named return is never assigned — so `Open` always returns a nil error,
whatever happened inside the loop. -/
def OpenModel (src : List Nat) : Out (List HUnit × Option (List Char)) :=
  match openLoop (listLen src + 1) (mkRdr src) [] with
  | Out.crash m => Out.crash m
  | Out.ok us => Out.ok (us, none)

/-- `fmt.Sscanf(d, "%c%d.%d", &code, &w, &m)` as `Format` uses it: `%c`
takes the first character; `%d` then parses a digit run (stopping at the
first failure and leaving the remaining arguments at their prior values
`w = 14`, `m = -1`); the literal `.` must then match for `m` to be
scanned. -/
def scanDisp (d : List Char) : Char × Int × Int :=
  match d with
  | [] => (Char.ofNat 0, 14, -1)
  | c :: rest =>
      let ds := rest.takeWhile isDigitChar
      if ds = [] then (c, 14, -1)
      else
        let w : Int := digitsVal ds
        match rest.dropWhile isDigitChar with
        | '.' :: rest2 =>
            let ds2 := rest2.takeWhile isDigitChar
            if ds2 = [] then (c, w, -1) else (c, w, (digitsVal ds2 : Int))
        | _ => (c, w, -1)

/-- Left-pad with spaces to the field width (Go right-justifies; no `-`
flag appears in the generated verbs). -/
def padWidth (w : Int) (s : List Char) : List Char :=
  if (s.length : Int) < w then List.replicate (w.toNat - s.length) ' ' ++ s else s

/-- Round-half-even of `q * 10^m` for a nonnegative rational, as Go's
decimal conversion rounds the exact binary value. -/
def roundHalfEven (q : Rat) (m : Nat) : Nat :=
  let num : Int := q.num * ((10 ^ m : Nat) : Int)
  let den : Int := (q.den : Int)
  let fl : Int := Int.fdiv num den
  let rem : Int := num - fl * den
  let up : Int := if 2 * rem > den then fl + 1
                  else if 2 * rem = den then (if fl % 2 = 0 then fl else fl + 1)
                  else fl
  up.toNat

/-- Go `%w.mf` of a finite float: fixed-point with `m` digits after the
point, right-justified to width `w`; `NaN` and infinities print their
names. -/
def fixedFmt (w : Int) (m : Nat) (v : FVal) : List Char :=
  match v with
  | FVal.nan => padWidth w (lc "NaN")
  | FVal.inf b => padWidth w (if b then lc "-Inf" else lc "+Inf")
  | FVal.num q =>
      let negSign := q.num < 0
      let n := roundHalfEven (if negSign then -q else q) m
      let ip := n / 10 ^ m
      let fp := n % 10 ^ m
      let ds := decOfNat ip ++
        (if m = 0 then []
         else
           let fd := decOfNat fp
           '.' :: (List.replicate (m - fd.length) '0' ++ fd))
      padWidth w (if negSign then '-' :: ds else ds)

/-- Rendering of an integer in base `b` with uppercase hex digits (for the
generated `%wd`, `%wb`, `%wo`, `%wX` verbs). -/
def baseDigitsAux (fuel : Nat) (b : Nat) (n : Nat) (acc : List Char) : List Char :=
  match fuel with
  | 0 => acc
  | fuel + 1 =>
      let d := n % b
      let c := if d < 10 then Char.ofNat (d + '0'.toNat) else Char.ofNat (d - 10 + 'A'.toNat)
      if n < b then c :: acc
      else baseDigitsAux fuel b (n / b) (c :: acc)

/-- Base-`b` rendering of an integer (sign first, as Go prints it). -/
def baseOfInt (b : Nat) (n : Int) : List Char :=
  if n < 0 then '-' :: baseDigitsAux (n.natAbs + 1) b n.natAbs []
  else baseDigitsAux (n.natAbs + 1) b n.natAbs []

/-- The decimal exponent `e` with `10^e ≤ |q| < 10^(e+1)` for a nonzero
rational (via digit counts, corrected by one step either way). -/
def decExp (q : Rat) : Int :=
  let a := if q.num < 0 then -q else q
  let guess : Int := ((decOfNat a.num.natAbs).length : Int) - ((decOfNat a.den).length : Int)
  let fix : Int → Int := fun e =>
    let p : Rat := if e ≥ 0 then ((10 ^ e.toNat : Nat) : Rat)
                   else 1 / ((10 ^ (-e).toNat : Nat) : Rat)
    if a < p then e - 1 else if a ≥ p * 10 then e + 1 else e
  fix guess

/-- Go `%w.me` of a float: scientific notation `d.dd...e±XX` with `m`
mantissa decimals (default 6), exponent at least two digits. -/
def sciFmt (w : Int) (m : Nat) (v : FVal) : List Char :=
  match v with
  | FVal.nan => padWidth w (lc "NaN")
  | FVal.inf b => padWidth w (if b then lc "-Inf" else lc "+Inf")
  | FVal.num q =>
      if q = 0 then
        let ds := '0' :: (if m = 0 then [] else '.' :: List.replicate m '0')
        padWidth w (ds ++ lc "e+00")
      else
        let negSign := q.num < 0
        let a := if negSign then -q else q
        let e := decExp a
        let scaled : Rat := if e ≥ 0 then a / ((10 ^ e.toNat : Nat) : Rat)
                            else a * ((10 ^ (-e).toNat : Nat) : Rat)
        let n := roundHalfEven scaled m
        let carry := n ≥ 10 ^ (m + 1)
        let n2 := if carry then n / 10 else n
        let e2 := if carry then e + 1 else e
        let ip := n2 / 10 ^ m
        let fp := n2 % 10 ^ m
        let ds := decOfNat ip ++
          (if m = 0 then []
           else
             let fd := decOfNat fp
             '.' :: (List.replicate (m - fd.length) '0' ++ fd))
        let eneg := e2 < 0
        let eabs := e2.natAbs
        let edigits := decOfNat eabs
        let epart := (if eneg then '-' else '+') ::
          (if edigits.length < 2 then List.replicate (2 - edigits.length) '0' ++ edigits
           else edigits)
        padWidth w ((if negSign then '-' :: ds else ds) ++ 'e' :: epart)

/-- Best-effort `%v` / `%wg` rendering of a finite rational: an exact
decimal when the denominator divides a power of ten (the only case a
decoded float exercises in the claims), a scientific fallback otherwise.
Go's shortest-round-trip algorithm on the binary value is not reproduced;
no theorem depends on this case. -/
def generalFmt (q : Rat) : List Char :=
  let negSign := q.num < 0
  let a := if negSign then -q else q
  let k : Option Nat :=
    (List.range 40).findSome?
      (fun i => if (a * ((10 ^ i : Nat) : Rat)).den = 1 then some i else none)
  match k with
  | some i =>
      let n := (a * ((10 ^ i : Nat) : Rat)).num.toNat
      let ip := n / 10 ^ i
      let fp := n % 10 ^ i
      let core := decOfNat ip ++
        (if i = 0 ∨ fp = 0 then []
         else
           let fd := decOfNat fp
           let frac := List.replicate (i - fd.length) '0' ++ fd
           '.' :: (frac.reverse.dropWhile (fun c => c = '0')).reverse)
      if negSign then '-' :: core else core
  | none => sciFmt 0 6 (FVal.num q)

/-- `%v` of one float value. -/
def floatFmt : FVal → List Char
  | FVal.num q => generalFmt q
  | FVal.inf b => if b then lc "-Inf" else lc "+Inf"
  | FVal.nan => lc "NaN"

/-- `%v` of a scalar value (array elements are always scalars here, since
the accessors only build flat slices). -/
def scalarFmt : Value → List Char
  | Value.vInt n => decOfInt n
  | Value.vBool b => if b then lc "true" else lc "false"
  | Value.vStr s => s
  | Value.vNull => lc "<nil>"
  | Value.vFloat x => floatFmt x
  | Value.vCplx re im =>
      '(' :: (floatFmt re ++
        (match im with
         | FVal.num q => if q < 0 then floatFmt im else '+' :: floatFmt im
         | FVal.inf b => if b then floatFmt im else '+' :: floatFmt im
         | FVal.nan => '+' :: lc "NaN") ++ lc "i)")
  | Value.vArr _ => lc "[...]"

/-- Go `fmt.Sprintf("%v", x)` for the values a `FieldFunc` can return. -/
def defaultFmt : Value → List Char
  | Value.vArr l => '[' :: ((l.map scalarFmt).intersperse (lc " ")).flatten ++ [']']
  | v => scalarFmt v

/-- A bad-verb marker in the style of Go's `%!d(...)` output, for a verb
applied to a value of the wrong dynamic type (never exercised by a claim).
-/
def badVerb (v : Value) : List Char := lc "%!(" ++ defaultFmt v ++ lc ")"

/-- Application of the format string `Format` built to the cell value: each
case of the `switch code` builds one verb, rendered here.  `fmtA` is
`%w.ws` (truncate to the precision, then right-justify), the integer verbs
format `vInt` values, `F`/`D`/`E`/`G` format floats. -/
inductive FmtSpec : Type where
  | dflt : FmtSpec
  | strS (w : Int) : FmtSpec
  | intD (w : Int) : FmtSpec
  | intB (w : Int) : FmtSpec
  | intO (w : Int) : FmtSpec
  | intZ (w : Int) : FmtSpec
  | fixP (w : Int) (m : Nat) : FmtSpec
  | fixD (w : Int) : FmtSpec
  | sciP (w : Int) (m : Nat) : FmtSpec
  | sciD (w : Int) : FmtSpec
  | genP (w : Int) (m : Nat) : FmtSpec
  | genD (w : Int) : FmtSpec

/-- `fmt.Sprintf(format, x)` for the single verb `Format` builds. -/
def sprintf1 (spec : FmtSpec) (v : Value) : List Char :=
  match spec with
  | FmtSpec.dflt => defaultFmt v
  | FmtSpec.strS w =>
      match v with
      | Value.vStr s => padWidth w (s.take w.toNat)
      | _ => badVerb v
  | FmtSpec.intD w =>
      match v with
      | Value.vInt n => padWidth w (decOfInt n)
      | _ => badVerb v
  | FmtSpec.intB w =>
      match v with
      | Value.vInt n => padWidth w (baseOfInt 2 n)
      | _ => badVerb v
  | FmtSpec.intO w =>
      match v with
      | Value.vInt n => padWidth w (baseOfInt 8 n)
      | _ => badVerb v
  | FmtSpec.intZ w =>
      match v with
      | Value.vInt n => padWidth w (baseOfInt 16 n)
      | _ => badVerb v
  | FmtSpec.fixP w m =>
      match v with
      | Value.vFloat x => fixedFmt w m x
      | _ => badVerb v
  | FmtSpec.fixD w =>
      match v with
      | Value.vFloat x => fixedFmt w 6 x
      | _ => badVerb v
  | FmtSpec.sciP w m =>
      match v with
      | Value.vFloat x => sciFmt w m x
      | _ => badVerb v
  | FmtSpec.sciD w =>
      match v with
      | Value.vFloat x => sciFmt w 6 x
      | _ => badVerb v
  | FmtSpec.genP w m =>
      match v with
      | Value.vFloat x => sciFmt w (m - 1) x
      | _ => badVerb v
  | FmtSpec.genD w =>
      match v with
      | Value.vFloat (FVal.num q) => padWidth w (generalFmt q)
      | Value.vFloat x => padWidth w (fixedFmt 0 0 x)
      | _ => badVerb v

/-- The `switch code` of Go `Format`: which verb the TDISP code selects
(`A`, `I`, `B`, `O`, `Z`, `F`/`D`, `E`, `G`; anything else keeps the `%v`
default). -/
def dispSpec (code : Char) (w m : Int) : FmtSpec :=
  if code = 'A' then FmtSpec.strS w
  else if code = 'I' then FmtSpec.intD w
  else if code = 'B' then FmtSpec.intB w
  else if code = 'O' then FmtSpec.intO w
  else if code = 'Z' then FmtSpec.intZ w
  else if code = 'F' ∨ code = 'D' then
    (if m ≠ -1 then FmtSpec.fixP w m.toNat else FmtSpec.fixD w)
  else if code = 'E' then
    (if m ≠ -1 then FmtSpec.sciP w m.toNat else FmtSpec.sciD w)
  else if code = 'G' then
    (if m ≠ -1 then FmtSpec.genP w m.toNat else FmtSpec.genD w)
  else FmtSpec.dflt

/-- Go `Unit.Format`: resolve the column to an accessor and its TDISP (an
integer index reads `TDISP\x7bn+1\x7d`; a name reads the `#name` index key —
whose absence makes `n.(int)` a nil-interface type assertion panic — and
then `TDISP\x7bn\x7d`), return `""` for a nil accessor, normalize an
`EN`/`ES` code, scan the directive, and render the cell value. -/
def Format (u : HUnit) (col : Col) (row : Int) : Out (List Char) :=
  let resolved : Out (Option FieldFn × Value) :=
    match col with
    | Col.idx n =>
        if 0 ≤ n ∧ n < (u.lst.length : Int) then
          Out.ok ((u.lst.get? n.toNat).getD none,
                  (klookup u.keys (Nth (lc "TDISP") (n + 1))).getD Value.vNull)
        else Out.ok (none, Value.vNull)
    | Col.name s =>
        let fnOpt := List.lookup s u.flds
        match (klookup u.keys ('#' :: s)).getD Value.vNull with
        | Value.vInt k =>
            Out.ok (fnOpt, (klookup u.keys (Nth (lc "TDISP") k)).getD Value.vNull)
        | _ => Out.crash (lc "interface conversion: interface is nil, not int")
  match resolved with
  | Out.crash m => Out.crash m
  | Out.ok (none, _) => Out.ok []
  | Out.ok (some fn, disp) =>
      let spec : Out FmtSpec :=
        match disp with
        | Value.vNull => Out.ok FmtSpec.dflt
        | Value.vStr d0 =>
            let d := match d0 with
                     | a :: b :: rest =>
                         if b = 'N' ∨ b = 'S' then a :: rest else d0
                     | _ => d0
            let cwm := scanDisp d
            Out.ok (dispSpec cwm.1 cwm.2.1 cwm.2.2)
        | _ => Out.crash (lc "interface conversion: interface is not string")
      match spec with
      | Out.crash m => Out.crash m
      | Out.ok sp =>
          match fn row with
          | Out.crash m => Out.crash m
          | Out.ok v => Out.ok (sprintf1 sp v)

/-! ### Concrete streams and units used by the claim theorems -/

/-- One 80-byte header card: the ASCII bytes of `s` padded with spaces. -/
def cardB (s : String) : List Nat :=
  (s.toList.map Char.toNat) ++ List.replicate (80 - s.length) 32

/-- One 2880-byte header block: up to 36 cards, space-padded. -/
def blockB (cards : List String) : List Nat :=
  (cards.map cardB).flatten ++ List.replicate ((36 - cards.length) * 80) 32

/-- A stream with a single primary header carrying `SIMPLE` but no
`BITPIX`: `verifyPrimary` rejects it. -/
def c1src : List Nat := blockB ["SIMPLE  = T", "END"]

/-- A header block whose card `BAD` carries an unterminated string
literal. -/
def c3src : List Nat := blockB ["BAD     = 'abc", "END"]

/-- A dataless primary HDU followed by a header with neither `SIMPLE` nor
`XTENSION`. -/
def c4src : List Nat :=
  blockB ["SIMPLE  = T", "BITPIX  = 8", "NAXIS   = 0", "END"] ++ blockB ["FOO", "END"]

/-- The second block of `c4src` alone (the unknown header). -/
def c4srcB : List Nat := blockB ["FOO", "END"]

/-- The units `Open` returned (empty on a panic, which never occurs in the
streams considered). -/
def openUnits (src : List Nat) : List HUnit :=
  match OpenModel src with
  | Out.ok (us, _) => us
  | Out.crash _ => []

/-- The error `Open` returned (`none` marks a panic instead of a return). -/
def openErr (src : List Nat) : Option (Option (List Char)) :=
  match OpenModel src with
  | Out.ok (_, e) => some e
  | Out.crash _ => none

/-- Whether `NewHeader` returned a unit without error. -/
def hdrOk (src : List Nat) : Bool :=
  match newHeader (mkRdr src) with
  | Out.ok (Except.ok _) => true
  | _ => false

/-- The unit `NewHeader` returned (default unit otherwise). -/
def hdrUnit (src : List Nat) : HUnit :=
  match newHeader (mkRdr src) with
  | Out.ok (Except.ok (u, _)) => u
  | _ => defUnit

/-- The decoded cell value 987.654321 of the C5 example. -/
def q987 : Rat := mkRat 987654321 1000000

/-- The accessor of a loaded float column whose decoded cell value is
987.654321 in every row. -/
def fluxFn : FieldFn := fun _ => Out.ok (Value.vFloat (FVal.num q987))

/-- A loaded binary-table unit as `loadTable` leaves it for a single
`TTYPE1 = FLUX` float column with `TDISP1 = F10.4`: the name map holds
`FLUX`, `#FLUX` indexes it as column 1, and the accessor decodes
987.654321. -/
def c5unit : HUnit :=
  { keys := [(lc "#FLUX", Value.vInt 1), (lc "TDISP1", Value.vStr (lc "F10.4"))],
    naxis := [4, 3], data := DataPayload.blob [], lst := [some fluxFn],
    flds := [(lc "FLUX", fluxFn)], cls := lc "BINTABLE", blank := 0,
    blankMode := BlankMode.never }

/-- A byte image header (`BITPIX = 8`, `NAXIS = [2]`) with no `BLANK`
key. -/
def c6u0 : HUnit := mkUnit [(lc "BITPIX", Value.vInt 8)] [2]

/-- The image unit `loadData` builds from `c6u0` over the pixel bytes
`[0, 5]`. -/
def c6unit : HUnit :=
  match loadData c6u0 (mkRdr [0, 5]) with
  | Out.ok (u, _) => u
  | Out.crash _ => c6u0

/-- A loaded byte image with `Naxis = [3, 2]` and flat values
`[1, 2, 3, 4, 5, 6]`. -/
def c7unit : HUnit :=
  { mkUnit [(lc "BITPIX", Value.vInt 8)] [3, 2] with
    data := DataPayload.pix (PixData.u8 [1, 2, 3, 4, 5, 6]) }

/-- The initial state of the `loadTable` field loop over a key map. -/
def ltInit (keys : KeyMap) : LTSt :=
  { keys := keys, flds := [], lst := [], col := 0, infos := [] }

/-- Header keys declaring the binary columns `TFORM1 = "3I"` and
`TFORM2 = "1J"`. -/
def c8keys : KeyMap :=
  [(lc "TFORM1", Value.vStr (lc "3I")), (lc "TFORM2", Value.vStr (lc "1J"))]

/-- The final loop state of the `c8keys` layout over a 10-byte row. -/
def c8st : LTSt :=
  match ltLoop [10, 1] (List.replicate 10 0) 10 true (ltInit c8keys) 0 2 with
  | Out.ok (Except.ok st) => st
  | _ => ltInit c8keys

/-- Header keys declaring a repeat-0 column `TFORM1 = "0J"` named `GONE`
and a live column `TFORM2 = "1J"` named `KEEP`. -/
def c10keys : KeyMap :=
  [(lc "TFORM1", Value.vStr (lc "0J")), (lc "TTYPE1", Value.vStr (lc "GONE")),
   (lc "TFORM2", Value.vStr (lc "1J")), (lc "TTYPE2", Value.vStr (lc "KEEP"))]

/-- The final loop state of the `c10keys` table over a 4-byte row. -/
def c10st : LTSt :=
  match ltLoop [4, 1] [0, 0, 0, 7] 4 true (ltInit c10keys) 0 2 with
  | Out.ok (Except.ok st) => st
  | _ => ltInit c10keys

/-- The unit `loadTable` assembles from a finished loop state (the
registration results become `list` and `fields`). -/
def uOfLT (u : HUnit) (blob : List Nat) (st : LTSt) : HUnit :=
  { u with keys := st.keys, data := DataPayload.blob blob, lst := st.lst,
           flds := st.flds }

/-! ### Claim theorems -/

/-- C1: the claim says a failed mandatory-keyword validation (or data
load) is surfaced by `Open` as a non-nil error next to the partial unit
list.  On the stream `c1src` (a `SIMPLE` header without `BITPIX`)
validation does fail — `verifyPrimary` reports "No BITPIX in the primary
header" and the loop stops with the one parsed unit — yet `Open` returns a
nil error: the loop-local `err` of `h, err := b.NewHeader()` shadows the
named return, which is never assigned. -/
theorem claim_C1_open_error_swallowed :
    openErr c1src = some none ∧
    (openUnits c1src).length = 1 ∧
    verifyPrimary ((openUnits c1src).headD defUnit) =
      Except.error (lc "No BITPIX in the primary header") :=
  ⟨rfl, rfl, rfl⟩

/-- C2: the claim says `Format` returns `""` and never raises for an
unknown column.  The out-of-range index path does return `""`, but the
string path evaluates `h.Keys["#"+name].(int)` before the nil-accessor
guard, so an unknown name is a nil-interface type-assertion panic. -/
theorem claim_C2_format_unknown_name_panics :
    Format c5unit (Col.name (lc "NOPE")) 0 =
      Out.crash (lc "interface conversion: interface is nil, not int") ∧
    Format c5unit (Col.idx 5) 0 = Out.ok [] ∧
    Format c5unit (Col.idx (-1)) 0 = Out.ok [] :=
  ⟨rfl, rfl, rfl⟩

/-- C3 counterexample: the claim says a malformed string literal makes
header parsing fail with an error rather than succeed with the key
dropped.  On `c3src` the literal `'abc` is indeed rejected by
`processString`, but `NewHeader` returns the header without error and the
key `BAD` is simply absent. -/
theorem claim_C3_counterexample :
    processString (lc "'abc") = Except.error (lc "String ends prematurely") ∧
    hdrOk c3src = true ∧
    klookup (hdrUnit c3src).keys (lc "BAD") = none ∧
    (klookup (hdrUnit c3src).keys (lc "END")).isSome = true :=
  ⟨rfl, rfl, rfl, rfl⟩

/-- C3 amended: a literal not starting with a quote, or a quoted string
still open when the literal ends, makes `processString` return an error —
but `NewHeader` discards that error (`if err == nil`), silently dropping
the key, and header parsing succeeds without error. -/
theorem claim_C3_amended (c : Char) (cs : List Char) (hq : c ≠ '\'') :
    processString (c :: cs) =
      Except.error (lc "String does not start with a quote") ∧
    processString (lc "'abc") = Except.error (lc "String ends prematurely") ∧
    hdrOk c3src = true ∧
    klookup (hdrUnit c3src).keys (lc "BAD") = none := by
  refine ⟨?_, rfl, rfl, rfl⟩
  simp [processString, psLoop, hq]

/-- C3 witness: the amended theorem applied at the literal `xabc`. -/
theorem claim_C3_amended_witness :
    processString ('x' :: lc "abc") =
      Except.error (lc "String does not start with a quote") :=
  (claim_C3_amended 'x' (lc "abc") (by decide)).1

/-- C4 counterexample: the claim says the sequence is truncated at the
last successfully decoded Unit, the unknown header contributing no Unit.
On `c4src` (one decoded HDU, then a header with neither `SIMPLE` nor
`XTENSION`) `Open` returns two units, not one: every parsed header is
appended before it is classified, so the unknown header's Unit (whose keys
contain `FOO`) is the final element.  The error is nil, as claimed. -/
theorem claim_C4_counterexample :
    (openUnits c4src).length = 2 ∧
    (openUnits c4src).length ≠ 1 ∧
    openErr c4src = some none ∧
    (klookup ((openUnits c4src).getLastD defUnit).keys (lc "FOO")).isSome = true := by
  refine ⟨rfl, ?_, rfl, rfl⟩
  have h2 : (openUnits c4src).length = 2 := rfl
  omega

/-- C4 amended: when the next header carries neither `SIMPLE` nor an
`XTENSION` string, the decode loop terminates at once with no error: the
returned sequence is everything decoded so far followed by the unknown
header's Unit (its header is parsed, but it is never classified and no
data is loaded for it). -/
theorem claim_C4_amended (fuel : Nat) (r : Rdr) (acc : List HUnit)
    (u : HUnit) (r2 : Rdr)
    (h1 : newHeader r = Out.ok (Except.ok (u, r2)))
    (h2 : klookup u.keys (lc "SIMPLE") = none)
    (h3 : strValOf (klookup u.keys (lc "XTENSION")) = none)
    (h4 : r.eof = false) :
    openLoop (fuel + 1) r acc = Out.ok (acc ++ [u]) := by
  simp only [openLoop, h4, Bool.false_eq_true, if_false, ite_false, h1, h2,
    Option.isSome_none, h3]

/-- The reader state `NewHeader` leaves behind on the stream `c4srcB`. -/
def c4bRdr : Rdr :=
  match newHeader (mkRdr c4srcB) with
  | Out.ok (Except.ok (_, r)) => r
  | _ => mkRdr []

/-- C4 witness: the amended claim applied to the concrete unknown-header
stream `c4srcB` (a `FOO`/`END` block). -/
theorem claim_C4_amended_witness :
    openLoop 1 (mkRdr c4srcB) [] = Out.ok [hdrUnit c4srcB] :=
  claim_C4_amended 0 (mkRdr c4srcB) [] (hdrUnit c4srcB) c4bRdr rfl rfl rfl rfl

/-- C5 counterexample: with the cell value 987.654321 and `TDISP = F10.4`,
`Format` does not return the bare string `987.6543` — the verb `%10.4f`
right-justifies to the directive's width 10. -/
theorem claim_C5_counterexample :
    Format c5unit (Col.name (lc "FLUX")) 1 ≠ Out.ok (lc "987.6543") := by
  decide

/-- C5 amended: with the cell value 987.654321 and `TDISP = F10.4`,
`Format` returns the width-10 right-justified fixed-point rendering
`"  987.6543"` (two leading spaces). -/
theorem claim_C5_amended :
    Format c5unit (Col.name (lc "FLUX")) 1 = Out.ok (lc "  987.6543") := rfl

/-- C6: the claim says `Stats` ranges over exactly the elements the blank
predicate calls non-blank, excluding nothing when `BLANK` is undefined.
On the loaded byte image `c6unit` (values 0 and 5, no `BLANK` key) the
blank predicate is constantly false, yet `Stats` reports minimum 5: its
loops compare elements against the zero-valued `h.blank` field even though
no `BLANK` key was ever defined, so the 0 element is excluded. -/
theorem claim_C6_stats_blank_zero :
    klookup c6unit.keys (lc "BLANK") = none ∧
    uBlank c6unit [0] = Out.ok false ∧
    uBlank c6unit [1] = Out.ok false ∧
    uStats c6unit = Out.ok (FVal.num 5, FVal.num 5) :=
  ⟨rfl, rfl, rfl, rfl⟩

/-- C7: the pixel accessors use the axis-0-fastest fold — `goIndex` (the
loop of `Unit.index`) coincides with the specification fold
`pixelIndexSpec` on all axis/coordinate lists — and on the loaded 3×2 image
`c7unit` with flat values [1,2,3,4,5,6] the four sample pixels read
1, 3, 4 and 6. -/
theorem claim_C7_pixel_index :
    (∀ naxis a : List Int, goIndex naxis a = pixelIndexSpec a naxis) ∧
    uAt c7unit [0, 0] = Out.ok (Value.vInt 1) ∧
    uAt c7unit [2, 0] = Out.ok (Value.vInt 3) ∧
    uAt c7unit [0, 1] = Out.ok (Value.vInt 4) ∧
    uAt c7unit [2, 1] = Out.ok (Value.vInt 6) := by
  refine ⟨?_, rfl, rfl, rfl, rfl⟩
  intro naxis a
  unfold goIndex pixelIndexSpec
  rw [List.foldl_reverse, ← List.zip_swap naxis a, List.foldr_map]
  rfl

/-- The byte contribution of one layout record: `repeat × element_size`
for a processed binary column, 0 for a skipped or text column. -/
def infoContrib : Option (Nat × Char × Nat) → Nat
  | some (r, c, _) => r * elemLen c
  | none => 0

/-- Total row bytes consumed by a list of layout records. -/
def offsetSum (infos : List (Option (Nat × Char × Nat))) : Nat :=
  (infos.map infoContrib).sum

theorem accessorBin_col {naxis : List Int} {blob : List Nat} {blobLen : Nat}
    {code : Char} {rpt col : Nat} {fn : FieldFn} {disp : List Char} {col2 : Nat}
    (h : accessorBin naxis blob blobLen code rpt col = Out.ok (fn, disp, col2)) :
    col2 = col + elemLen code * rpt := by
  unfold accessorBin at h
  split at h
  · exact absurd h (by simp)
  · injection h with h2
    exact (congrArg (fun t => t.2.2) h2).symm

theorem ltRegister_shape {st : LTSt} {i : Nat} {fn : FieldFn} {disp : List Char}
    {col2 : Nat} {info : Option (Nat × Char × Nat)} {st2 : LTSt}
    (h : ltRegister st i fn disp col2 info = Out.ok st2) :
    st2.infos = st.infos ++ [info] ∧ st2.col = col2 ∧
    st2.lst = st.lst ++ [some fn] ∧
    (st2.flds = st.flds ∨
      ∃ name, st2.flds = (name, fn) :: st.flds ∧
        klookup st.keys (Nth (lc "TTYPE") ((i : Int) + 1)) = some (Value.vStr name)) := by
  unfold ltRegister ltRegisterKeys at h
  split at h
  · exact absurd h (by simp)
  · rename_i keys2 flds2 heq
    split at heq
    · rename_i name hname
      injection heq with heq2
      injection h with h2
      subst h2
      refine ⟨rfl, rfl, rfl, Or.inr ⟨name, ?_, hname⟩⟩
      have : flds2 = (name, fn) :: st.flds := (congrArg (fun t => t.2) heq2).symm
      simp [this]
    · exact absurd heq (by simp)
    · injection heq with heq2
      injection h with h2
      subst h2
      refine ⟨rfl, rfl, rfl, Or.inl ?_⟩
      have : flds2 = st.flds := (congrArg (fun t => t.2) heq2).symm
      simp [this]

theorem ltStep_bin_infos {naxis : List Int} {blob : List Nat} {blobLen : Nat}
    {st : LTSt} {i : Nat} {st2 : LTSt}
    (h : ltStep naxis blob blobLen true st i = Out.ok (Except.ok st2)) :
    (st2.infos = st.infos ++ [none] ∧ st2.col = st.col) ∨
    (∃ r c, st2.infos = st.infos ++ [some (r, c, st.col)] ∧
      st2.col = st.col + r * elemLen c) := by
  unfold ltStep at h
  split at h
  · rename_i form hform
    rw [if_pos rfl] at h
    split at h
    · exact absurd h (by simp)
    · rename_i j hj
      split at h
      · split at h
        · exact absurd h (by simp)
        · rename_i fn disp col2 hacc
          split at h
          · exact absurd h (by simp)
          · rename_i st3 hreg
            injection h with h2
            injection h2 with h3
            subst h3
            obtain ⟨hinf, hcol, _, _⟩ := ltRegister_shape hreg
            refine Or.inr ⟨_, _, hinf, ?_⟩
            rw [hcol, accessorBin_col hacc, Nat.mul_comm]
      · injection h with h2
        injection h2 with h3
        subst h3
        exact Or.inl ⟨rfl, rfl⟩
  · exact absurd h (by simp)

theorem ltLoop_infos (naxis : List Int) (blob : List Nat) (blobLen : Nat) :
    ∀ (n : Nat) (st : LTSt) (i : Nat) (stF : LTSt),
    ltLoop naxis blob blobLen true st i n = Out.ok (Except.ok stF) →
    ∃ delta, stF.infos = st.infos ++ delta ∧
      ∀ (k r : Nat) (c : Char) (off : Nat),
        delta.get? k = some (some (r, c, off)) →
        off = st.col + offsetSum (delta.take k) := by
  intro n
  induction n with
  | zero =>
      intro st i stF h
      rw [ltLoop] at h
      injection h with h2
      injection h2 with h3
      subst h3
      exact ⟨[], by simp, by intro k r c off hk; simp at hk⟩
  | succ n ih =>
      intro st i stF h
      rw [ltLoop] at h
      split at h
      · exact absurd h (by simp)
      · exact absurd h (by simp)
      · rename_i st2 hstep
        obtain ⟨delta2, hd2, hoff2⟩ := ih st2 (i + 1) stF h
        rcases ltStep_bin_infos hstep with ⟨hinf, hcol⟩ | ⟨r, c, hinf, hcol⟩
        · refine ⟨none :: delta2, ?_, ?_⟩
          · rw [hd2, hinf, List.append_assoc]
            rfl
          · intro k r c off hk
            match k, hk with
            | k + 1, hk =>
                have := hoff2 k r c off hk
                rw [this, hcol]
                simp [offsetSum, infoContrib]
        · refine ⟨some (r, c, st.col) :: delta2, ?_, ?_⟩
          · rw [hd2, hinf, List.append_assoc]
            rfl
          · intro k r2 c2 off hk
            match k, hk with
            | 0, hk =>
                injection hk with hk2
                injection hk2 with hk3
                have h1 : off = st.col := (congrArg (fun t => t.2.2) hk3).symm
                simp [h1, offsetSum]
            | k + 1, hk =>
                have := hoff2 k r2 c2 off hk
                rw [this, hcol]
                simp only [List.take_succ_cons, offsetSum, List.map_cons,
                  List.sum_cons, infoContrib]
                omega

/-- C8: in a binary table layout, each processed field's captured row byte
offset equals the sum of `repeat × element_size` over all fields declared
before it (skipped `repeat = 0` columns contributing nothing, exactly as
the cursor never moved for them). -/
theorem claim_C8_binary_offsets (naxis : List Int) (blob : List Nat)
    (blobLen : Nat) (keys : KeyMap) (n k r : Nat) (c : Char) (off : Nat)
    (stF : LTSt)
    (Hrun : ltLoop naxis blob blobLen true (ltInit keys) 0 n =
      Out.ok (Except.ok stF))
    (Hget : stF.infos.get? k = some (some (r, c, off))) :
    off = offsetSum (stF.infos.take k) := by
  obtain ⟨delta, hd, hoff⟩ := ltLoop_infos naxis blob blobLen n (ltInit keys) 0 stF Hrun
  have hdelta : stF.infos = delta := by
    rw [hd]
    rfl
  rw [hdelta] at Hget ⊢
  have := hoff k r c off Hget
  simpa [ltInit] using this

/-- C8 witness: the layout of `TFORM1 = "3I"` followed by `TFORM2 = "1J"`
gives the `1J` field the row offset 6 = 3 × 2, as the theorem's sum
predicts. -/
theorem claim_C8_binary_offsets_witness :
    ltLoop [10, 1] (List.replicate 10 0) 10 true (ltInit c8keys) 0 2 =
      Out.ok (Except.ok c8st) ∧
    c8st.infos.get? 1 = some (some (1, 'J', 6)) ∧
    6 = offsetSum (c8st.infos.take 1) ∧
    offsetSum (c8st.infos.take 1) = 3 * elemLen 'I' :=
  ⟨rfl, rfl,
   claim_C8_binary_offsets [10, 1] (List.replicate 10 0) 10 c8keys 2 1 1 'J' 6
     c8st rfl rfl, rfl⟩

/-- Keys whose first two characters are `TF` or `TT` (in particular every
`TFORM` and `TTYPE` key): the field loop never writes such a key as long
as every column is named, which keeps its lookups stable. -/
def stKeyTF (k : List Char) : Prop :=
  k.take 2 = lc "TF" ∨ k.take 2 = lc "TT"

/-- Column `j` of a binary table is processed: its `TFORM` parses with a
positive repeat count. -/
def tformProc (keys : KeyMap) (j : Nat) : Prop :=
  ∃ form jx, klookup keys (Nth (lc "TFORM") ((j : Int) + 1)) = some (Value.vStr form) ∧
    form.findIdx? isBinCode = some jx ∧ binRepeat form jx > 0

/-- Column `j` of a binary table vanishes: its `TFORM` parses with repeat
count zero (or negative), so `loadTable` skips it (`continue`). -/
def tformSkip (keys : KeyMap) (j : Nat) : Prop :=
  ∃ form jx, klookup keys (Nth (lc "TFORM") ((j : Int) + 1)) = some (Value.vStr form) ∧
    form.findIdx? isBinCode = some jx ∧ ¬ binRepeat form jx > 0

theorem tformProc_skip_false {keys : KeyMap} {j : Nat}
    (hp : tformProc keys j) (hs : tformSkip keys j) : False := by
  obtain ⟨f1, j1, hf1, hj1, hr1⟩ := hp
  obtain ⟨f2, j2, hf2, hj2, hr2⟩ := hs
  rw [hf1] at hf2
  injection hf2 with he
  injection he with he2
  subst he2
  rw [hj1] at hj2
  injection hj2 with he3
  subst he3
  exact hr2 hr1

theorem klookup_kset (m : KeyMap) (k : List Char) (v : Value) (k2 : List Char) :
    klookup (kset m k v) k2 = if k2 = k then some v else klookup m k2 := by
  by_cases h : k2 = k
  · subst h
    simp [klookup, kset, List.lookup]
  · have hb : (k2 == k) = false := beq_eq_false_iff_ne.mpr h
    simp [klookup, kset, List.lookup, hb, h]

theorem take2_tform (x : Int) : (Nth (lc "TFORM") x).take 2 = lc "TF" := rfl

theorem take2_ttype (x : Int) : (Nth (lc "TTYPE") x).take 2 = lc "TT" := rfl

theorem take2_tdisp (x : Int) : (Nth (lc "TDISP") x).take 2 = lc "TD" := rfl

theorem stKeyTF_tform (x : Int) : stKeyTF (Nth (lc "TFORM") x) :=
  Or.inl (take2_tform x)

theorem stKeyTF_ttype (x : Int) : stKeyTF (Nth (lc "TTYPE") x) :=
  Or.inr (take2_ttype x)

theorem stKeyTF_ne_hash {k : List Char} (hk : stKeyTF k) (name : List Char) :
    k ≠ '#' :: name := by
  intro he
  subst he
  rcases hk with h | h <;> simp [lc, List.take_succ_cons] at h

theorem stKeyTF_ne_tdisp {k : List Char} (hk : stKeyTF k) (x : Int) :
    k ≠ Nth (lc "TDISP") x := by
  intro he
  subst he
  rcases hk with h | h <;> rw [take2_tdisp] at h <;> exact absurd h (by decide)

/-- When column `i` has a string `TTYPE` name, registration only writes
the `#name` and `TDISP` keys, so `TF`/`TT`-prefixed lookups are unchanged,
and the accessor and name land in `list` and `fields`. -/
theorem ltRegister_named {st : LTSt} {i : Nat} {fn : FieldFn} {disp : List Char}
    {col2 : Nat} {info : Option (Nat × Char × Nat)} {st2 : LTSt} {name : List Char}
    (hname : klookup st.keys (Nth (lc "TTYPE") ((i : Int) + 1)) = some (Value.vStr name))
    (h : ltRegister st i fn disp col2 info = Out.ok st2) :
    (∀ k, stKeyTF k → klookup st2.keys k = klookup st.keys k) ∧
    st2.lst = st.lst ++ [some fn] ∧
    st2.flds = (name, fn) :: st.flds := by
  unfold ltRegister ltRegisterKeys at h
  rw [hname] at h
  injection h with h2
  subst h2
  refine ⟨?_, rfl, rfl⟩
  intro k hk
  split
  · rw [klookup_kset, if_neg (stKeyTF_ne_tdisp hk ((i : Int) + 1)),
        klookup_kset, if_neg (stKeyTF_ne_hash hk name)]
  · rw [klookup_kset, if_neg (stKeyTF_ne_hash hk name)]

/-- Shape of one successful binary field-loop step on a named column:
`TF`/`TT` lookups unchanged, exactly one `list` entry appended, `fields`
grown only by the column's own registered name (if processed), and a
vanished (`repeat = 0`) column appending the nil entry and registering
nothing. -/
theorem ltStep_named {naxis : List Int} {blob : List Nat} {blobLen : Nat}
    {st : LTSt} {i : Nat} {st2 : LTSt}
    (h : ltStep naxis blob blobLen true st i = Out.ok (Except.ok st2))
    (hname : ∃ s, klookup st.keys (Nth (lc "TTYPE") ((i : Int) + 1)) =
      some (Value.vStr s)) :
    (∀ k, stKeyTF k → klookup st2.keys k = klookup st.keys k) ∧
    (∃ e, st2.lst = st.lst ++ [e]) ∧
    (st2.flds = st.flds ∨
      ∃ name fn, st2.flds = (name, fn) :: st.flds ∧
        klookup st.keys (Nth (lc "TTYPE") ((i : Int) + 1)) = some (Value.vStr name) ∧
        tformProc st.keys i) ∧
    (tformSkip st.keys i →
      st2.lst = st.lst ++ [none] ∧ st2.flds = st.flds) := by
  obtain ⟨nm, hnm⟩ := hname
  unfold ltStep at h
  split at h
  · rename_i form hform
    rw [if_pos rfl] at h
    split at h
    · exact absurd h (by simp)
    · rename_i j hj
      split at h
      · rename_i hrep
        split at h
        · exact absurd h (by simp)
        · rename_i fn disp col2 hacc
          split at h
          · exact absurd h (by simp)
          · rename_i st3 hreg
            injection h with h2
            injection h2 with h3
            subst h3
            obtain ⟨hkeys, hlst, hflds⟩ := ltRegister_named hnm hreg
            have hproc : tformProc st.keys i := ⟨form, j, hform, hj, hrep⟩
            refine ⟨hkeys, ⟨some fn, hlst⟩,
              Or.inr ⟨nm, fn, hflds, hnm, hproc⟩, ?_⟩
            intro hskip
            exact absurd hproc (fun hp => tformProc_skip_false hp hskip)
      · rename_i hrep
        injection h with h2
        injection h2 with h3
        subst h3
        exact ⟨fun k hk => rfl, ⟨none, rfl⟩, Or.inl rfl, fun _ => ⟨rfl, rfl⟩⟩
  · exact absurd h (by simp)

/-- Invariants of the binary field loop over fully named columns: `TF`/`TT`
key lookups are unchanged, `list` grows by exactly one entry per column
with earlier entries untouched, every `fields` entry traces back to some
processed column's `TTYPE` name, and a vanished column's `list` slot holds
the nil accessor. -/
theorem ltLoop_named (naxis : List Int) (blob : List Nat) (blobLen : Nat) :
    ∀ (n : Nat) (st : LTSt) (i : Nat) (stF : LTSt),
    ltLoop naxis blob blobLen true st i n = Out.ok (Except.ok stF) →
    (∀ j, i ≤ j → j < i + n →
      ∃ s, klookup st.keys (Nth (lc "TTYPE") ((j : Int) + 1)) = some (Value.vStr s)) →
    (∀ k, stKeyTF k → klookup stF.keys k = klookup st.keys k) ∧
    stF.lst.length = st.lst.length + n ∧
    (∀ m, m < st.lst.length → stF.lst.get? m = st.lst.get? m) ∧
    (∀ p, p ∈ stF.flds → p ∈ st.flds ∨
      ∃ j, i ≤ j ∧ j < i + n ∧
        klookup st.keys (Nth (lc "TTYPE") ((j : Int) + 1)) = some (Value.vStr p.1) ∧
        tformProc st.keys j) ∧
    (∀ j, i ≤ j → j < i + n → tformSkip st.keys j →
      stF.lst.get? (st.lst.length + (j - i)) = some none) := by
  intro n
  induction n with
  | zero =>
      intro st i stF h hnm
      rw [ltLoop] at h
      injection h with h2
      injection h2 with h3
      subst h3
      refine ⟨fun k hk => rfl, by omega, fun m hm => rfl, fun p hp => Or.inl hp, ?_⟩
      intro j hij hjn hsk
      exact absurd hjn (by omega)
  | succ n ih =>
      intro st i stF h hnm
      rw [ltLoop] at h
      split at h
      · exact absurd h (by simp)
      · exact absurd h (by simp)
      · rename_i st2 hstep
        have hname_i : ∃ s, klookup st.keys (Nth (lc "TTYPE") ((i : Int) + 1)) =
            some (Value.vStr s) := hnm i (Nat.le_refl i) (by omega)
        obtain ⟨Sk, ⟨e, hlst2⟩, hflds2, hskipstep⟩ := ltStep_named hstep hname_i
        have hnm2 : ∀ j, i + 1 ≤ j → j < (i + 1) + n →
            ∃ s, klookup st2.keys (Nth (lc "TTYPE") ((j : Int) + 1)) =
              some (Value.vStr s) := by
          intro j h1 h2
          rw [Sk _ (stKeyTF_ttype _)]
          exact hnm j (by omega) (by omega)
        obtain ⟨A2, B2, C2, D2, E2⟩ := ih st2 (i + 1) stF h hnm2
        have hlen2 : st2.lst.length = st.lst.length + 1 := by
          rw [hlst2]
          simp
        refine ⟨?_, by omega, ?_, ?_, ?_⟩
        · intro k hk
          rw [A2 k hk, Sk k hk]
        · intro m hm
          rw [C2 m (by omega), hlst2]
          exact List.get?_append (by omega)
        · intro p hp
          rcases D2 p hp with hin2 | ⟨j, hj1, hj2, hty, hproc⟩
          · rcases hflds2 with he | ⟨name, fn, hcons, hty, hproc⟩
            · exact Or.inl (he ▸ hin2)
            · rw [hcons] at hin2
              rcases List.mem_cons.mp hin2 with hpe | hin
              · refine Or.inr ⟨i, Nat.le_refl i, by omega, ?_, hproc⟩
                rw [hpe]
                exact hty
              · exact Or.inl hin
          · refine Or.inr ⟨j, by omega, by omega, ?_, ?_⟩
            · rw [← Sk _ (stKeyTF_ttype _)]
              exact hty
            · obtain ⟨f, jx, hf, hjx, hr⟩ := hproc
              refine ⟨f, jx, ?_, hjx, hr⟩
              rw [← Sk _ (stKeyTF_tform _)]
              exact hf
        · intro j hij hjn hskip
          by_cases hji : j = i
          · subst hji
            obtain ⟨hl, hf⟩ := hskipstep hskip
            have hidx : st.lst.length + (j - j) = st.lst.length := by omega
            rw [hidx, C2 st.lst.length (by omega), hl,
                List.get?_append_right (Nat.le_refl _)]
            simp
          · have hskip2 : tformSkip st2.keys j := by
              obtain ⟨f, jx, hf, hjx, hr⟩ := hskip
              refine ⟨f, jx, ?_, hjx, hr⟩
              rw [Sk _ (stKeyTF_tform _)]
              exact hf
            have hres := E2 j (by omega) (by omega) hskip2
            have hidx : st.lst.length + (j - i) = st2.lst.length + (j - (i + 1)) := by
              omega
            rw [hidx]
            exact hres

theorem lookup_mem {a : List Char} {b : FieldFn} :
    ∀ {l : List (List Char × FieldFn)}, List.lookup a l = some b → (a, b) ∈ l := by
  intro l
  induction l with
  | nil => intro h; simp [List.lookup] at h
  | cons hd t ih =>
      intro h
      obtain ⟨k, v⟩ := hd
      rw [List.lookup] at h
      by_cases hbeq : a = k
      · subst hbeq
        have hb : (a == a) = true := beq_self_eq_true a
        rw [hb] at h
        injection h with h2
        subst h2
        exact List.mem_cons_self _ _
      · have hb : (a == k) = false := beq_eq_false_iff_ne.mpr hbeq
        rw [hb] at h
        exact List.mem_cons_of_mem _ (ih h)

/-- C10: a binary-table column declared with `TFORM` repeat 0 registers no
accessor through either lookup path.  For any fully named binary table in
which column `k` vanishes (repeat 0) and its `TTYPE` name `nm` is carried
by no other column: the name map has no entry for `nm`, so `Field` by name
returns the null accessor (absent result for every row), while `Field` by
the 0-based index `k` returns the nil `list` entry rather than a callable
accessor. -/
theorem claim_C10_repeat_zero_column (naxis : List Int) (blob : List Nat)
    (blobLen : Nat) (keys : KeyMap) (u0 : HUnit) (n k : Nat) (nm : List Char)
    (stF : LTSt)
    (Hrun : ltLoop naxis blob blobLen true (ltInit keys) 0 n =
      Out.ok (Except.ok stF))
    (Hnm : ∀ j, j < n →
      ∃ s, klookup keys (Nth (lc "TTYPE") ((j : Int) + 1)) = some (Value.vStr s))
    (Hk : k < n)
    (Hskip : tformSkip keys k)
    (Hname : klookup keys (Nth (lc "TTYPE") ((k : Int) + 1)) = some (Value.vStr nm))
    (Hdis : ∀ j, j < n → j ≠ k →
      klookup keys (Nth (lc "TTYPE") ((j : Int) + 1)) ≠ some (Value.vStr nm)) :
    Field (uOfLT u0 blob stF) (Col.name nm) = some nullFieldFn ∧
    (∀ row, nullFieldFn row = Out.ok Value.vNull) ∧
    Field (uOfLT u0 blob stF) (Col.idx (k : Int)) = none := by
  obtain ⟨A, B, C, D, E⟩ := ltLoop_named naxis blob blobLen n (ltInit keys) 0 stF
    Hrun (by intro j h0 hj; exact Hnm j (by omega))
  have hkentry : stF.lst.get? k = some none := by
    have he := E k (Nat.zero_le k) (by omega) Hskip
    simpa [ltInit] using he
  have hlook : List.lookup nm stF.flds = none := by
    cases hcase : List.lookup nm stF.flds with
    | none => rfl
    | some f =>
        exfalso
        have hmem := lookup_mem hcase
        rcases D (nm, f) hmem with hin | ⟨j, hj0, hjn, hty, hproc⟩
        · simp [ltInit] at hin
        · by_cases hjk : j = k
          · subst hjk
            exact tformProc_skip_false hproc Hskip
          · exact Hdis j (by omega) hjk hty
  have hlen : stF.lst.length = n := by simpa [ltInit] using B
  refine ⟨?_, fun row => rfl, ?_⟩
  · show (match List.lookup nm (uOfLT u0 blob stF).flds with
          | some f => some f
          | none => some nullFieldFn) = some nullFieldFn
    have hpr : (uOfLT u0 blob stF).flds = stF.flds := rfl
    rw [hpr, hlook]
  · show (if 0 ≤ (k : Int) ∧ (k : Int) < ((uOfLT u0 blob stF).lst.length : Int)
          then ((uOfLT u0 blob stF).lst.get? ((k : Int)).toNat).getD none
          else some nullFieldFn) = none
    have hpr : (uOfLT u0 blob stF).lst = stF.lst := rfl
    rw [hpr]
    have hbound : 0 ≤ (k : Int) ∧ (k : Int) < (stF.lst.length : Int) := by
      refine ⟨Int.natCast_nonneg k, ?_⟩
      rw [hlen]
      exact_mod_cast Hk
    rw [if_pos hbound]
    have ht : ((k : Int)).toNat = k := Int.toNat_natCast k
    rw [ht, hkentry]
    rfl

/-- C10 witness: the theorem applied to the concrete table `c10keys`
(`TFORM1 = "0J"` named `GONE`, `TFORM2 = "1J"` named `KEEP`). -/
theorem claim_C10_repeat_zero_column_witness :
    Field (uOfLT (mkUnit c10keys [4, 1]) [0, 0, 0, 7] c10st)
      (Col.name (lc "GONE")) = some nullFieldFn ∧
    nullFieldFn 3 = Out.ok Value.vNull ∧
    Field (uOfLT (mkUnit c10keys [4, 1]) [0, 0, 0, 7] c10st) (Col.idx 0) = none := by
  have main := claim_C10_repeat_zero_column [4, 1] [0, 0, 0, 7] 4 c10keys
    (mkUnit c10keys [4, 1]) 2 0 (lc "GONE") c10st
    rfl
    (by
      intro j hj
      match j, hj with
      | 0, _ => exact ⟨lc "GONE", rfl⟩
      | 1, _ => exact ⟨lc "KEEP", rfl⟩
      | j + 2, hj => exact absurd hj (by omega))
    (by decide)
    ⟨lc "0J", 1, rfl, rfl, by decide⟩
    rfl
    (by
      intro j hj hne
      match j, hj, hne with
      | 0, _, hne => exact absurd rfl hne
      | 1, _, _ =>
          intro hcon
          have hkeep : klookup c10keys (Nth (lc "TTYPE") (((1 : Nat) : Int) + 1)) =
              some (Value.vStr (lc "KEEP")) := rfl
          rw [hkeep] at hcon
          injection hcon with h2
          injection h2 with h3
          exact absurd h3 (by decide)
      | j + 2, hj, _ => exact absurd hj (by omega))
  exact ⟨main.1, main.2.1 3, main.2.2⟩

/-- C9: the claim says the literal `'O''Brien'` decodes to `O'Brien`.  The
doubled quote and the trailing-space trim do work — when a terminating
character follows the closing quote — but on the exact literal
`'O''Brien'` the scanner reaches the end of input in its
candidate-close state and returns the error "String ends prematurely"
instead, so a comment-less string card loses its key. -/
theorem claim_C9_scanner_end_state :
    processString (lc "'O''Brien'") =
      Except.error (lc "String ends prematurely") ∧
    processString (lc "'O''Brien' /") = Except.ok (lc "O'Brien") ∧
    processString (lc "'O''Brien   ' /") = Except.ok (lc "O'Brien") :=
  ⟨rfl, rfl, rfl⟩

end Fits
